import Mathlib

/-!
Verification of the WebCloneAI backend (scrape-then-generate pipeline).

Shallow embedding of the three source modules:
* `backend/services/scraper.js` — `cleanHTML` (regex-based sanitizer) and
  `scrapeWebsite` (browser lifecycle, modelled as an effect trace);
* `backend/services/aiGenerator.js` — `generateBackendCode` (prompt assembly,
  response coercion, JSON validation, error classification, fallback), with
  `JSON.parse` modelled by an executable JSON parser and the external model
  call modelled as an outcome parameter;
* the Express server — the `POST /api/clone` handler, with the WHATWG `URL`
  constructor and the two pipeline stages passed in as parameters.

Strings are modelled as `List Char` (one entry per UTF-16-ish code point),
JavaScript regular expressions are compiled by hand into explicit scanners
that mirror the backtracking semantics of each concrete pattern.
-/

/-- ASCII uppercase test (the only case folding performed by a JavaScript
regex `i` flag outside the `u` mode for the ASCII patterns used here). -/
def isUpperA (c : Char) : Bool := 65 ≤ c.toNat && c.toNat ≤ 90

/-- Case-insensitive character comparison for the `i` regex flag:
equal, or the same letter in the two ASCII cases. -/
def chEqCI (a b : Char) : Bool :=
  a == b || (isUpperA a && b.toNat == a.toNat + 32) || (isUpperA b && a.toNat == b.toNat + 32)

/-- Case-insensitive "pat is a prefix of s". -/
def startsWithCI : List Char → List Char → Bool
  | [], _ => true
  | _ :: _, [] => false
  | p :: ps, c :: cs => chEqCI p c && startsWithCI ps cs

/-- Case-insensitive substring containment. -/
def containsCI (pat : List Char) : List Char → Bool
  | [] => pat.isEmpty
  | c :: cs => startsWithCI pat (c :: cs) || containsCI pat cs

/-- Case-sensitive "pat is a prefix of s" (JavaScript `String.includes` helper). -/
def startsWithCS : List Char → List Char → Bool
  | [], _ => true
  | _ :: _, [] => false
  | p :: ps, c :: cs => p == c && startsWithCS ps cs

/-- Case-sensitive substring containment, the semantics of `String.includes`. -/
def containsCS (pat : List Char) : List Char → Bool
  | [] => pat.isEmpty
  | c :: cs => startsWithCS pat (c :: cs) || containsCS pat cs

/-- Character class of the JavaScript regex `\s` (and of `String.trim`). -/
def isJsWs (c : Char) : Bool :=
  c == ' ' || c == '\t' || c == '\n' || c == '\r' || c == '\x0b' || c == '\x0c' ||
  c == ' ' || c == ' ' || (8192 ≤ c.toNat && c.toNat ≤ 8202) ||
  c == ' ' || c == ' ' || c == ' ' || c == ' ' ||
  c == '　' || c == '﻿'

/-- Character class of the JavaScript regex `\w`, used for `\b`. -/
def isWordChar (c : Char) : Bool :=
  (48 ≤ c.toNat && c.toNat ≤ 57) || (65 ≤ c.toNat && c.toNat ≤ 90) ||
  (97 ≤ c.toNat && c.toNat ≤ 122) || c == '_'

/-- Line terminators, the characters the JavaScript regex `.` does not match. -/
def isJsLineTerm (c : Char) : Bool :=
  c == '\n' || c == '\r' || c == ' ' || c == ' '

/-- Word-boundary check for the position right after `<script` in
`/<script\b…/`: boundary holds at end of input or before a non-word char. -/
def wordBdry : List Char → Bool
  | [] => true
  | d :: _ => !isWordChar d

/-- Remainder of `s` after the first case-insensitive occurrence of `pat`;
`none` when `pat` does not occur.  This is the semantics of the greedy
`[^<]*(?:(?!CLOSE)<[^<]*)*CLOSE` idiom: the match always ends at the first
occurrence of the closing literal. -/
def dropAfterFirstCI (pat : List Char) : List Char → Option (List Char)
  | [] => none
  | c :: cs =>
    if startsWithCI pat (c :: cs) then some (List.drop pat.length (c :: cs))
    else dropAfterFirstCI pat cs

/-- Remainder after the first case-insensitive occurrence of `pat` reachable
through `.`-matchable characters only (the lazy `.*?pat` idiom without the
`s` flag): scanning stops at a line terminator. -/
def findCINoNl (pat : List Char) : List Char → Option (List Char)
  | [] => none
  | c :: cs =>
    if startsWithCI pat (c :: cs) then some (List.drop pat.length (c :: cs))
    else if isJsLineTerm c then none
    else findCINoNl pat cs

/-- List after the first occurrence of the character `x` (for `[^x]*x` ). -/
def afterFirst (x : Char) : List Char → Option (List Char)
  | [] => none
  | c :: cs => if c == x then some cs else afterFirst x cs

/-- Semantics of `\s+<` after a `>`: at least one whitespace char followed,
after the whole whitespace run, by `<`; returns the list after the `<`. -/
def wsThenLt : List Char → Option (List Char)
  | [] => none
  | c :: cs =>
    if isJsWs c then
      match cs.dropWhile isJsWs with
      | [] => none
      | d :: r => if d == '<' then some r else none
    else none

/-- Fuel-indexed scanner for
`html.replace(/<TAG\b[^<]*(?:(?!<\/TAG>)<[^<]*)*<\/TAG>/gi, '')`:
deletes every complete `<TAG ...</TAG>` block (the match always extends to the
first closing literal after the opening tag), scanning left to right without
re-examining already-emitted output, exactly like a global regex replace.
Every step consumes at least one input character, so instantiating the fuel
with the input length (as `stripBlocks` does) never exhausts it. -/
def stripBlocksF (tag : List Char) : Nat → List Char → List Char
  | 0, l => l
  | _ + 1, [] => []
  | fuel + 1, c :: cs =>
    if startsWithCI ('<' :: tag) (c :: cs) && wordBdry (List.drop (tag.length + 1) (c :: cs)) then
      match dropAfterFirstCI ('<' :: '/' :: (tag ++ ['>'])) (List.drop (tag.length + 1) (c :: cs)) with
      | some r => stripBlocksF tag fuel r
      | none => c :: stripBlocksF tag fuel cs
    else c :: stripBlocksF tag fuel cs

/-- Block-removal scanner at full fuel. -/
def stripBlocks (tag : List Char) (l : List Char) : List Char :=
  stripBlocksF tag l.length l

/-- Fuel-indexed scanner for `/<!--.*?MARKER.*?-->/gi` (global replace by the
empty string): a match starts at a literal `<!--`, reaches the first
occurrence of `MARKER` without crossing a line terminator, then the first
`-->` likewise; otherwise the scan advances one character. -/
def stripCommentsF (marker : List Char) : Nat → List Char → List Char
  | 0, l => l
  | _ + 1, [] => []
  | fuel + 1, c :: cs =>
    if startsWithCI ("<!--".data) (c :: cs) then
      match findCINoNl marker (List.drop 4 (c :: cs)) with
      | some r1 =>
        match findCINoNl ("-->".data) r1 with
        | some r2 => stripCommentsF marker fuel r2
        | none => c :: stripCommentsF marker fuel cs
      | none => c :: stripCommentsF marker fuel cs
    else c :: stripCommentsF marker fuel cs

/-- Comment-removal scanner at full fuel. -/
def stripComments (marker : List Char) (l : List Char) : List Char :=
  stripCommentsF marker l.length l

/-- Tail matcher for `/data-gtm-[^=]*="[^"]*"/gi` after the literal head:
greedy `[^=]*` runs to the first `=`, which must be followed by `"`,
then `[^"]*"` runs to the next quote. -/
def gtmTail (l : List Char) : Option (List Char) :=
  match afterFirst '=' l with
  | none => none
  | some r =>
    match r with
    | [] => none
    | c :: r2 => if c == '"' then afterFirst '"' r2 else none

/-- Fuel-indexed scanner for `html.replace(/data-gtm-[^=]*="[^"]*"/gi, '')`. -/
def stripDataGtmF : Nat → List Char → List Char
  | 0, l => l
  | _ + 1, [] => []
  | fuel + 1, c :: cs =>
    if startsWithCI ("data-gtm-".data) (c :: cs) then
      match gtmTail (List.drop 9 (c :: cs)) with
      | some r => stripDataGtmF fuel r
      | none => c :: stripDataGtmF fuel cs
    else c :: stripDataGtmF fuel cs

/-- Attribute-removal scanner at full fuel. -/
def stripDataGtm (l : List Char) : List Char := stripDataGtmF l.length l

/-- Fuel-indexed scanner for `html.replace(/ga\([^)]*\)/gi, '')`. -/
def stripGaF : Nat → List Char → List Char
  | 0, l => l
  | _ + 1, [] => []
  | fuel + 1, c :: cs =>
    if startsWithCI ("ga(".data) (c :: cs) then
      match afterFirst ')' (List.drop 3 (c :: cs)) with
      | some r => stripGaF fuel r
      | none => c :: stripGaF fuel cs
    else c :: stripGaF fuel cs

/-- Call-removal scanner at full fuel. -/
def stripGa (l : List Char) : List Char := stripGaF l.length l

/-- Fuel-indexed scanner for `html.replace(/\s+/g, ' ')`: every whitespace
run becomes a single space. -/
def collapseWsF : Nat → List Char → List Char
  | 0, l => l
  | _ + 1, [] => []
  | fuel + 1, c :: cs =>
    if isJsWs c then ' ' :: collapseWsF fuel (cs.dropWhile isJsWs)
    else c :: collapseWsF fuel cs

/-- Whitespace collapsing at full fuel. -/
def collapseWs (l : List Char) : List Char := collapseWsF l.length l

/-- Fuel-indexed scanner for `html.replace(/>\s+</g, '><')`. -/
def dropWsBetweenF : Nat → List Char → List Char
  | 0, l => l
  | _ + 1, [] => []
  | fuel + 1, c :: cs =>
    if c == '>' then
      match wsThenLt cs with
      | some r => '>' :: '<' :: dropWsBetweenF fuel r
      | none => '>' :: dropWsBetweenF fuel cs
    else c :: dropWsBetweenF fuel cs

/-- Inter-tag whitespace removal at full fuel. -/
def dropWsBetween (l : List Char) : List Char := dropWsBetweenF l.length l


/-- Tail-whitespace removal, the right half of `String.trim`. -/
def dropTrailWs (l : List Char) : List Char := ((l.reverse).dropWhile isJsWs).reverse

/-- Semantics of JavaScript `String.trim`. -/
def jsTrim (l : List Char) : List Char := dropTrailWs (l.dropWhile isJsWs)

/-- Embedding of `cleanHTML` from `backend/services/scraper.js`: the three
tag-block removals, the four tracking-pattern removals, whitespace collapsing,
inter-tag whitespace removal, and the final trim, in source order. -/
def cleanHTMLList (s : List Char) : List Char :=
  let s1 := stripBlocks ("script".data) s
  let s2 := stripBlocks ("iframe".data) s1
  let s3 := stripBlocks ("noscript".data) s2
  let s4 := stripComments ("Google Analytics".data) s3
  let s5 := stripComments ("gtag".data) s4
  let s6 := stripDataGtm s5
  let s7 := stripGa s6
  let s8 := dropWsBetween (collapseWs s7)
  jsTrim s8

/-- String-level `cleanHTML`. -/
def cleanHTML (s : String) : String := String.mk (cleanHTMLList s.data)

/-- The removal stage of `cleanHTML`: the three tag-block removals and the
four tracking-pattern removals, in source order, before the whitespace
stages. -/
def stripStages (l : List Char) : List Char :=
  stripGa (stripDataGtm (stripComments ("gtag".data) (stripComments ("Google Analytics".data)
    (stripBlocks ("noscript".data) (stripBlocks ("iframe".data)
      (stripBlocks ("script".data) l))))))

/-- Fuel-indexed scanner for the markdown-fence removals
`content.replace(/```TAG\s*/gi, '')` in `aiGenerator.js` (the fuel is always
instantiated with the input length, which suffices because every step
consumes at least one character). -/
def stripFenceTagF (tag : List Char) : Nat → List Char → List Char
  | 0, l => l
  | _ + 1, [] => []
  | fuel + 1, c :: cs =>
    if startsWithCI ('`' :: '`' :: '`' :: tag) (c :: cs) then
      stripFenceTagF tag fuel ((List.drop (tag.length + 3) (c :: cs)).dropWhile isJsWs)
    else c :: stripFenceTagF tag fuel cs

/-- Scanner for `content.replace(/```TAG\s*/gi, '')`. -/
def stripFenceTag (tag : List Char) (l : List Char) : List Char :=
  stripFenceTagF tag l.length l

/-- Index of the first occurrence of a character, `String.indexOf`. -/
def firstIdx (x : Char) (l : List Char) : Option Nat :=
  l.findIdx? (fun c => c == x)

/-- Index of the last occurrence of a character, `String.lastIndexOf`. -/
def lastIdx (x : Char) (l : List Char) : Option Nat :=
  ((l.reverse).findIdx? (fun c => c == x)).map (fun i => l.length - 1 - i)

/-- JavaScript `String.substring(a, b)`: clamps to the length and swaps the
two indices when given in the wrong order. -/
def jsSubstring (l : List Char) (a b : Nat) : List Char :=
  (l.take (max a b)).drop (min a b)

/-- Response coercion from `generateBackendCode`: trim, remove the three
fence patterns, narrow to the substring from the first `\x7b` to the last
`\x7d` when both exist, trim again. -/
def cleanContent (l : List Char) : List Char :=
  let c1 := jsTrim l
  let c2 := stripFenceTag ("json".data) c1
  let c3 := stripFenceTag ("javascript".data) c2
  let c4 := stripFenceTag [] c3
  let c5 :=
    match firstIdx '\x7b' c4, lastIdx '\x7d' c4 with
    | some i, some j => jsSubstring c4 i (j + 1)
    | _, _ => c4
  jsTrim c5

/-- JSON values as produced by `JSON.parse`: numbers are kept exactly as a
decimal mantissa and exponent (value `m * 10 ^ e`), objects as ordered field
lists (later duplicates shadow earlier ones through `objGet`). -/
inductive JsValue where
  | null : JsValue
  | bool : Bool → JsValue
  | num : Int → Int → JsValue
  | str : List Char → JsValue
  | arr : List JsValue → JsValue
  | obj : List (List Char × JsValue) → JsValue

/-- JSON whitespace (much smaller than the regex `\s` class). -/
def isJsonWs (c : Char) : Bool :=
  c == ' ' || c == '\t' || c == '\n' || c == '\r'

/-- Skip JSON whitespace. -/
def skipJsonWs (l : List Char) : List Char := l.dropWhile isJsonWs

/-- Value of a hexadecimal digit. -/
def hexVal (c : Char) : Option Nat :=
  if 48 ≤ c.toNat && c.toNat ≤ 57 then some (c.toNat - 48)
  else if 65 ≤ c.toNat && c.toNat ≤ 70 then some (c.toNat - 55)
  else if 97 ≤ c.toNat && c.toNat ≤ 102 then some (c.toNat - 87)
  else none

/-- Single-character JSON string escapes. -/
def escChar : Char → Option Char
  | '"' => some '"'
  | '\\' => some '\\'
  | '/' => some '/'
  | 'b' => some '\x08'
  | 'f' => some '\x0c'
  | 'n' => some '\n'
  | 'r' => some '\r'
  | 't' => some '\t'
  | _ => none

/-- JSON string body parser (after the opening quote): returns the decoded
characters and the remainder after the closing quote. -/
def parseStrAux : List Char → List Char → Option (List Char × List Char)
  | _, [] => none
  | acc, '"' :: rest => some (acc.reverse, rest)
  | acc, '\\' :: 'u' :: a :: b :: c :: d :: rest =>
    (match hexVal a, hexVal b, hexVal c, hexVal d with
     | some x1, some x2, some x3, some x4 =>
       parseStrAux (Char.ofNat (((x1 * 16 + x2) * 16 + x3) * 16 + x4) :: acc) rest
     | _, _, _, _ => none)
  | acc, '\\' :: e :: rest =>
    (match escChar e with
     | some ch => parseStrAux (ch :: acc) rest
     | none => none)
  | _, ['\\'] => none
  | acc, c :: rest =>
    if c.toNat < 32 then none else parseStrAux (c :: acc) rest

/-- Numeric value of a digit list. -/
def digitsVal (ds : List Char) : Nat :=
  ds.foldl (fun a c => a * 10 + (c.toNat - 48)) 0

/-- Fraction part after the dot: value, digit count and remainder. -/
def parseFrac (l : List Char) : Option (Nat × Nat × List Char) :=
  match l.span (fun c => c.isDigit) with
  | (fs, r) => if fs.isEmpty then none else some (digitsVal fs, fs.length, r)

/-- Exponent part after `e`/`E`. -/
def parseExp (l : List Char) : Option (Int × List Char) :=
  let p : Int × List Char :=
    match l with
    | '+' :: r => (1, r)
    | '-' :: r => (-1, r)
    | _ => (1, l)
  match (p.2).span (fun c => c.isDigit) with
  | (ds, r) => if ds.isEmpty then none else some (p.1 * (digitsVal ds : Int), r)

/-- JSON number parser (strict grammar: no leading zeros, no bare dot). -/
def parseNumber (l : List Char) : Option (JsValue × List Char) :=
  let s : Bool × List Char :=
    match l with
    | '-' :: r => (true, r)
    | _ => (false, l)
  match (s.2).span (fun c => c.isDigit) with
  | (ds, rest) =>
    if ds.isEmpty then none
    else if 1 < ds.length && ds.headD '0' == '0' then none
    else
      let step1 : Option (Nat × Int × List Char) :=
        match rest with
        | '.' :: r2 => (parseFrac r2).map (fun p => (digitsVal ds * 10 ^ p.2.1 + p.1, -(p.2.1 : Int), p.2.2))
        | _ => some (digitsVal ds, 0, rest)
      match step1 with
      | none => none
      | some (m, e, rest1) =>
        let mk : Int → JsValue := fun ex => JsValue.num (if s.1 then -(m : Int) else (m : Int)) ex
        match rest1 with
        | 'e' :: r3 => (parseExp r3).map (fun q => (mk (e + q.1), q.2))
        | 'E' :: r3 => (parseExp r3).map (fun q => (mk (e + q.1), q.2))
        | _ => some (mk e, rest1)

mutual

/-- Fuel-indexed JSON value parser; the fuel bounds the nesting depth and
`(input length + 1)` always suffices. -/
def parseVal : Nat → List Char → Option (JsValue × List Char)
  | 0, _ => none
  | fuel + 1, l =>
    match skipJsonWs l with
    | 'n' :: 'u' :: 'l' :: 'l' :: rest => some (JsValue.null, rest)
    | 't' :: 'r' :: 'u' :: 'e' :: rest => some (JsValue.bool true, rest)
    | 'f' :: 'a' :: 'l' :: 's' :: 'e' :: rest => some (JsValue.bool false, rest)
    | '"' :: rest => (parseStrAux [] rest).map (fun p => (JsValue.str p.1, p.2))
    | '\x7b' :: rest =>
      (match skipJsonWs rest with
       | '\x7d' :: r2 => some (JsValue.obj [], r2)
       | _ => parseMembers fuel rest [])
    | '[' :: rest =>
      (match skipJsonWs rest with
       | ']' :: r2 => some (JsValue.arr [], r2)
       | _ => parseElems fuel rest [])
    | other => parseNumber other

/-- Object members parser. -/
def parseMembers : Nat → List Char → List (List Char × JsValue) → Option (JsValue × List Char)
  | 0, _, _ => none
  | fuel + 1, l, acc =>
    match skipJsonWs l with
    | '"' :: rest =>
      (match parseStrAux [] rest with
       | none => none
       | some (key, r2) =>
        match skipJsonWs r2 with
        | ':' :: r3 =>
          (match parseVal fuel r3 with
           | none => none
           | some (v, r4) =>
            match skipJsonWs r4 with
            | ',' :: r5 => parseMembers fuel r5 ((key, v) :: acc)
            | '\x7d' :: r5 => some (JsValue.obj (((key, v) :: acc).reverse), r5)
            | _ => none)
        | _ => none)
    | _ => none

/-- Array elements parser. -/
def parseElems : Nat → List Char → List JsValue → Option (JsValue × List Char)
  | 0, _, _ => none
  | fuel + 1, l, acc =>
    match parseVal fuel l with
    | none => none
    | some (v, r) =>
      match skipJsonWs r with
      | ',' :: r2 => parseElems fuel r2 (v :: acc)
      | ']' :: r2 => some (JsValue.arr ((v :: acc).reverse), r2)
      | _ => none

end

/-- Executable model of `JSON.parse`: a single value covering the whole
input, up to surrounding whitespace. -/
def jsonParse (l : List Char) : Option JsValue :=
  match parseVal (l.length + 1) l with
  | some (v, rest) => if (skipJsonWs rest).isEmpty then some v else none
  | none => none

/-- Property read on a parsed value (`obj.key`); on a JSON object the last
duplicate key wins, on every non-object value the read yields `undefined`
(`none`).  (Reading a property of `null` throws a TypeError in JavaScript;
inside `generateBackendCode` that exception is caught by the same handler
as the missing-field throw and leads to the identical fallback result, so
the model folds it into `none`.) -/
def objGet (key : List Char) : JsValue → Option JsValue
  | JsValue.obj fs => (((fs.reverse)).find? (fun kv => kv.1 == key)).map (fun kv => kv.2)
  | _ => none

/-- JavaScript truthiness of a JSON value. -/
def jsTruthy : JsValue → Bool
  | JsValue.null => false
  | JsValue.bool b => b
  | JsValue.num m _ => m != 0
  | JsValue.str s => !s.isEmpty
  | JsValue.arr _ => true
  | JsValue.obj _ => true

/-- Truthiness of a possibly-undefined value. -/
def jsTruthyOpt : Option JsValue → Bool
  | none => false
  | some v => jsTruthy v

/-- Generated code pair, the result type of `generateBackendCode`; the two
fields are whatever JSON values the parsed reply carried. -/
structure GeneratedCode where
  sqlSchema : JsValue
  nodeRoute : JsValue

/-- Fallback SQL schema text from `getFallbackCode` (verbatim). -/
def fallbackSqlSchema : String :=
  "-- Fallback SQL Schema\n-- Generated when AI service is unavailable\n\nCREATE TABLE IF NOT EXISTS users (\n  id SERIAL PRIMARY KEY,\n  email VARCHAR(255) UNIQUE NOT NULL,\n  username VARCHAR(100) NOT NULL,\n  created_at TIMESTAMP DEFAULT CURRENT_TIMESTAMP,\n  updated_at TIMESTAMP DEFAULT CURRENT_TIMESTAMP\n);\n\nCREATE TABLE IF NOT EXISTS form_submissions (\n  id SERIAL PRIMARY KEY,\n  user_id INTEGER REFERENCES users(id),\n  form_data JSONB NOT NULL,\n  submitted_at TIMESTAMP DEFAULT CURRENT_TIMESTAMP\n);\n\nCREATE INDEX idx_users_email ON users(email);\nCREATE INDEX idx_submissions_user ON form_submissions(user_id);"

/-- Fallback Express route text from `getFallbackCode` (verbatim;
apostrophes and braces are written with \x27/\x7b/\x7d escapes). -/
def fallbackNodeRoute : String :=
  "// Fallback Node.js Express Route\n// Generated when AI service is unavailable\n\nconst express = require(\x27express\x27);\nconst router = express.Router();\n\n// Middleware\nrouter.use(express.json());\n\n// Get all records\nrouter.get(\x27/users\x27, async (req, res) => \x7b\n  try \x7b\n    // TODO: Implement database query\n    res.json(\x7b message: \x27Get all users\x27, data: [] \x7d);\n  \x7d catch (error) \x7b\n    res.status(500).json(\x7b error: error.message \x7d);\n  \x7d\n\x7d);\n\n// Get single record\nrouter.get(\x27/users/:id\x27, async (req, res) => \x7b\n  try \x7b\n    const \x7b id \x7d = req.params;\n    // TODO: Implement database query\n    res.json(\x7b message: \x27Get user by id\x27, id \x7d);\n  \x7d catch (error) \x7b\n    res.status(500).json(\x7b error: error.message \x7d);\n  \x7d\n\x7d);\n\n// Create record\nrouter.post(\x27/users\x27, async (req, res) => \x7b\n  try \x7b\n    const userData = req.body;\n    // TODO: Implement database insert\n    res.status(201).json(\x7b message: \x27User created\x27, data: userData \x7d);\n  \x7d catch (error) \x7b\n    res.status(500).json(\x7b error: error.message \x7d);\n  \x7d\n\x7d);\n\n// Update record\nrouter.put(\x27/users/:id\x27, async (req, res) => \x7b\n  try \x7b\n    const \x7b id \x7d = req.params;\n    const userData = req.body;\n    // TODO: Implement database update\n    res.json(\x7b message: \x27User updated\x27, id, data: userData \x7d);\n  \x7d catch (error) \x7b\n    res.status(500).json(\x7b error: error.message \x7d);\n  \x7d\n\x7d);\n\n// Delete record\nrouter.delete(\x27/users/:id\x27, async (req, res) => \x7b\n  try \x7b\n    const \x7b id \x7d = req.params;\n    // TODO: Implement database delete\n    res.json(\x7b message: \x27User deleted\x27, id \x7d);\n  \x7d catch (error) \x7b\n    res.status(500).json(\x7b error: error.message \x7d);\n  \x7d\n\x7d);\n\nmodule.exports = router;"

/-- Embedding of `getFallbackCode` from `aiGenerator.js`. -/
def getFallbackCode : GeneratedCode :=
  ⟨JsValue.str fallbackSqlSchema.data, JsValue.str fallbackNodeRoute.data⟩

/-- Prompt text before the embedded HTML (verbatim from the template
literal in `generateBackendCode`). -/
def promptHead : String :=
  "You are an expert backend developer. Analyze the HTML below and generate backend code.\n\nHTML to analyze:\n```html\n"

/-- Prompt text after the embedded HTML (verbatim from the template literal;
apostrophes and braces written with \x27/\x7b/\x7d escapes). -/
def promptTail : String :=
  "\n```\n\nYOUR TASK:\n1. Identify forms, inputs, and data fields in the HTML\n2. Design a PostgreSQL schema to support this UI\n3. Create Express.js CRUD routes for the data\n\nCRITICAL: Return ONLY pure JSON. No markdown. No code blocks. No explanation.\n\nUse this EXACT JSON structure:\n\x7b\n  \"sqlSchema\": \"CREATE TABLE example (\\n  id SERIAL PRIMARY KEY,\\n  name VARCHAR(255)\\n);\",\n  \"nodeRoute\": \"const express = require(\x27express\x27);\\nconst router = express.Router();\\n\\nrouter.get(\x27/api/data\x27, (req, res) => \x7b\\n  res.json(\x7b data: [] \x7d);\\n\x7d);\\n\\nmodule.exports = router;\"\n\x7d\n\nRULES:\n- Use \\n for newlines in strings\n- Escape all quotes with \\\n- Return pure JSON only\n- If no forms exist, create a basic user table example\n- Include proper error handling in routes"

/-- Prompt assembly: the template literal embeds
`htmlString.substring(0, 6000)` between the fixed head and tail. -/
def promptFor (htmlString : String) : String :=
  promptHead ++ String.mk ((htmlString.data).take 6000) ++ promptTail

/-- Outcome of the external model call `model.generateContent(prompt)`:
either the await chain throws (with some error message) or a raw reply text
is produced. -/
inductive GenOutcome where
  | apiError : String → GenOutcome
  | reply : String → GenOutcome

/-- Try-block of `generateBackendCode`: credential and client checks, the
model call, response coercion, `JSON.parse`, and field validation.  Thrown
errors are the `Except.error` messages; `jsonErrMsg` models the
runtime-produced `SyntaxError.message` of a failed `JSON.parse` (a property
of the JavaScript engine, not of this repository). -/
def tryGenerate (jsonErrMsg : String → String) (apiKeyConfigured clientInitialized : Bool)
    (outcome : GenOutcome) : Except String GeneratedCode :=
  if !apiKeyConfigured then Except.error "GEMINI_API_KEY is not configured in .env file"
  else if !clientInitialized then Except.error "Gemini AI client not initialized"
  else
    match outcome with
    | GenOutcome.apiError m => Except.error m
    | GenOutcome.reply t =>
      let content := cleanContent t.data
      match jsonParse content with
      | none => Except.error ("AI returned invalid JSON: " ++ jsonErrMsg (String.mk content))
      | some v =>
        if !jsTruthyOpt (objGet ("sqlSchema".data) v) || !jsTruthyOpt (objGet ("nodeRoute".data) v) then
          Except.error "AI response missing required fields (sqlSchema or nodeRoute)"
        else
          Except.ok ⟨(objGet ("sqlSchema".data) v).getD JsValue.null,
                     (objGet ("nodeRoute".data) v).getD JsValue.null⟩

/-- Catch-block of `generateBackendCode`: the four substring-based error
categories are re-thrown with canned user-facing messages; every other
error is absorbed and replaced by the fallback pair. -/
def classifyCatch (m : String) : Except String GeneratedCode :=
  if m != "" && (containsCS ("API_KEY".data) m.data || containsCS ("API key".data) m.data) then
    Except.error "Invalid or missing Gemini API key. Check your .env file."
  else if m != "" && containsCS ("RATE_LIMIT".data) m.data then
    Except.error "Gemini API rate limit exceeded. Please try again later."
  else if m != "" && (containsCS ("QUOTA".data) m.data || containsCS ("quota".data) m.data) then
    Except.error "Gemini API quota exceeded. Check your Google Cloud quota."
  else if m != "" && containsCS ("blocked".data) m.data then
    Except.error "Content was blocked by Gemini safety filters."
  else
    Except.ok getFallbackCode

/-- Embedding of `generateBackendCode` from `aiGenerator.js`: the try-block
guarded by the catch-block. -/
def generateBackendCode (jsonErrMsg : String → String) (apiKeyConfigured clientInitialized : Bool)
    (outcome : GenOutcome) : Except String GeneratedCode :=
  match tryGenerate jsonErrMsg apiKeyConfigured clientInitialized outcome with
  | Except.ok v => Except.ok v
  | Except.error m => classifyCatch m

/-- Raw DOM/CSS extraction result returned by the in-page evaluate call. -/
structure ExtractedData where
  html : String
  css : String

/-- Effect trace environment for one `scrapeWebsite` call: the outcome of
every awaited external browser operation, in program order. -/
structure ScrapeEnv where
  launch : Except String Unit
  newPage : Except String Unit
  setViewport : Except String Unit
  setUserAgent : Except String Unit
  goto : Except String Unit
  waitAfterLoad : Except String Unit
  scrollEval : Except String Unit
  waitAfterScroll : Except String Unit
  extractEval : Except String ExtractedData

/-- Result record of `scrapeWebsite`. -/
structure ScrapeResult where
  html : String
  css : String

/-- Observable outcome of one `scrapeWebsite` call: the returned value or
wrapped error, plus whether the browser was launched and whether
`browser.close()` ran. -/
structure ScrapeOutcome where
  result : Except String ScrapeResult
  browserLaunched : Bool
  browserClosed : Bool

/-- Body of the try-block after a successful launch: the awaited page
operations in source order, ending with `cleanHTML` on the extracted HTML. -/
def runScrapeSteps (env : ScrapeEnv) : Except String ScrapeResult := do
  env.newPage
  env.setViewport
  env.setUserAgent
  env.goto
  env.waitAfterLoad
  env.scrollEval
  env.waitAfterScroll
  let d ← env.extractEval
  pure ⟨cleanHTML d.html, d.css⟩

/-- Embedding of `scrapeWebsite` from `scraper.js`: try/catch/finally with
`browser = null` before the try; the catch wraps the original message in
`Failed to scrape website: …`; the finally closes the browser exactly when
one was launched. -/
def scrapeWebsite (env : ScrapeEnv) : ScrapeOutcome :=
  match env.launch with
  | Except.error m =>
    ⟨Except.error ("Failed to scrape website: " ++ m), false, false⟩
  | Except.ok _ =>
    match runScrapeSteps env with
    | Except.ok r => ⟨Except.ok r, true, true⟩
    | Except.error m => ⟨Except.error ("Failed to scrape website: " ++ m), true, true⟩

/-- Server configuration relevant to the handler (`process.env.NODE_ENV`). -/
structure EnvConfig where
  nodeEnv : String

/-- A thrown JavaScript error as observed by the handler. -/
structure JsError where
  message : String
  stack : String

/-- Success payload of `POST /api/clone`. -/
structure CloneSuccessData where
  html : String
  css : String
  sqlSchema : JsValue
  nodeRoute : JsValue
  sourceUrl : String
  processingTime : String
  timestamp : String

/-- Response body shapes of the clone endpoint. -/
inductive RespBody where
  | validationError : String → String → RespBody
  | success : CloneSuccessData → RespBody
  | failure : String → String → Option String → RespBody

/-- Observable outcome of one `POST /api/clone` request: status, body, and
whether each pipeline stage was invoked. -/
structure HandlerResult where
  status : Nat
  body : RespBody
  scrapeCalled : Bool
  genCalled : Bool

/-- Embedding of the `POST /api/clone` handler from the Express server.
`urlCtorOk` models the external WHATWG `URL` constructor (`true` when
`new URL(url)` does not throw); `scrape` and `gen` are the two pipeline
stages; `timeStr`/`tsStr` stand for the measured elapsed time and the
timestamp.  The `url` body field is an `Option String`; both an absent field
and an empty string are falsy for the `!url` check. -/
def handleClone (cfg : EnvConfig) (urlCtorOk : String → Bool)
    (scrape : String → Except JsError ScrapeResult)
    (gen : String → Except JsError GeneratedCode)
    (timeStr tsStr : String) (urlField : Option String) : HandlerResult :=
  if urlField.isNone || urlField.getD "" == "" then
    ⟨400, RespBody.validationError "URL is required" "Please provide a valid URL to clone",
      false, false⟩
  else
    let url := urlField.getD ""
    if !urlCtorOk url then
      ⟨400, RespBody.validationError "Invalid URL" "Please provide a valid URL format",
        false, false⟩
    else
      match scrape url with
      | Except.error e =>
        ⟨500, RespBody.failure (if e.message == "" then "Internal server error" else e.message)
            "Failed to clone website. Please check the URL and try again."
            (if cfg.nodeEnv == "development" then some e.stack else none),
          true, false⟩
      | Except.ok sr =>
        match gen sr.html with
        | Except.error e =>
          ⟨500, RespBody.failure (if e.message == "" then "Internal server error" else e.message)
              "Failed to clone website. Please check the URL and try again."
              (if cfg.nodeEnv == "development" then some e.stack else none),
            true, true⟩
        | Except.ok g =>
          ⟨200, RespBody.success ⟨sr.html, sr.css, g.sqlSchema, g.nodeRoute, url, timeStr, tsStr⟩,
            true, true⟩

/-- Trivial stand-in for the engine-specific `JSON.parse` error message,
used by closed test instances whose runs never reach a parse failure. -/
def jemNone : String → String := fun _ => ""

/-- Concrete scrape stage that fails, for closed handler instances. -/
def scrapeStubErr : String → Except JsError ScrapeResult :=
  fun _ => Except.error ⟨"boom", "STACKTRACE"⟩

/-- Concrete scrape stage that succeeds, for closed handler instances. -/
def scrapeStubOk : String → Except JsError ScrapeResult :=
  fun _ => Except.ok ⟨"<div></div>", ".box \x7b color: red \x7d"⟩

/-- Concrete generation stage that succeeds, for closed handler instances. -/
def genStubOk : String → Except JsError GeneratedCode :=
  fun _ => Except.ok getFallbackCode

/-- URL-constructor model that rejects every string, for closed instances. -/
def urlNone : String → Bool := fun _ => false

/-- URL-constructor model that accepts every string, for closed instances. -/
def urlAll : String → Bool := fun _ => true

/-- Fenced model reply from the spec scenario (braces written \x7b/\x7d). -/
def fencedReply : String :=
  "```json\n\x7b\"sqlSchema\":\"A\",\"nodeRoute\":\"B\"\x7d\n```"

/-- Input whose single-pass block removal splices a new script element
together: removing the inner complete block joins the surrounding text into
a fresh `<script>…</script>`. -/
def spliceInput : String := "<scr<script>q</script>ipt>hello</script>"

/-- Every whitespace character of the list is a plain space (the shape
produced by the whitespace-collapsing pass). -/
def allWsSp (l : List Char) : Bool := l.all (fun c => !isJsWs c || c == ' ')

/-- No two adjacent whitespace characters. -/
def noAdjWs : List Char → Bool
  | c :: d :: rest => (!(isJsWs c && isJsWs d)) && noAdjWs (d :: rest)
  | _ => true

/-- The list is empty or starts with a non-whitespace character. -/
def firstNonWs : List Char → Bool
  | [] => true
  | c :: _ => !isJsWs c

/-- No position of the list matches `>\s+<` (the shape produced by the
inter-tag whitespace removal pass). -/
def noSplice : List Char → Bool
  | [] => true
  | c :: cs => (!(c == '>') || (wsThenLt cs).isNone) && noSplice cs

/-- The six substrings whose presence in a caught error message triggers a
classified re-throw in `generateBackendCode`. -/
def classifiedSubstrings : List (List Char) :=
  ["API_KEY".data, "API key".data, "RATE_LIMIT".data, "QUOTA".data, "quota".data, "blocked".data]

/-- Development-mode configuration for closed handler instances. -/
def defaultCfg : EnvConfig := ⟨"development"⟩

/-- Effect trace in which page navigation times out and every other browser
operation succeeds. -/
def envGotoTimeout : ScrapeEnv :=
  ⟨Except.ok (), Except.ok (), Except.ok (), Except.ok (),
   Except.error "Navigation timeout of 45000 ms exceeded", Except.ok (), Except.ok (),
   Except.ok (), Except.ok ⟨"", ""⟩⟩

/-- Whitespace characters have code points outside the ASCII letter range. -/
theorem isJsWs_toNat (c : Char) (h : isJsWs c = true) :
    c.toNat < 65 ∨ 122 < c.toNat := by
  simp [isJsWs] at h
  casesm* _ ∨ _
  all_goals first
    | omega
    | (rename_i h2; subst h2; decide)

/-- A pattern character that case-insensitively matches a whitespace
character is itself whitespace (in fact the same character). -/
theorem chEqCI_ws (p c : Char) (hpc : chEqCI p c = true) (hc : isJsWs c = true) :
    isJsWs p = true := by
  have hr := isJsWs_toNat c hc
  simp [chEqCI, isUpperA] at hpc
  rcases hpc with (h | h) | h
  · subst h; exact hc
  · omega
  · omega

/-- A pattern character that case-insensitively matches `>` is `>`. -/
theorem chEqCI_gt (p c : Char) (hpc : chEqCI p c = true) (hc : c = '>') : p = '>' := by
  subst hc
  have hv : ('>').toNat = 62 := by decide
  simp [chEqCI, isUpperA] at hpc
  rcases hpc with h | h
  · exact h
  · omega

/-- The empty pattern occurs in every list. -/
theorem containsCI_nil_pat (b : List Char) : containsCI [] b = true := by
  cases b with
  | nil => decide
  | cons c cs => rw [containsCI]; simp [startsWithCI]

/-- A case-insensitive prefix match extends along an appended suffix. -/
theorem startsWithCI_append (q : List Char) : ∀ l e, startsWithCI q l = true →
    startsWithCI q (l ++ e) = true := by
  induction q with
  | nil => intro l e _; simp [startsWithCI]
  | cons p ps ih =>
    intro l e h
    cases l with
    | nil => simp [startsWithCI] at h
    | cons c cs =>
      rw [List.cons_append, startsWithCI]
      rw [startsWithCI] at h
      simp only [Bool.and_eq_true] at h ⊢
      exact ⟨h.1, ih cs e h.2⟩

/-- A substring of the right part occurs in an append. -/
theorem containsCI_append_right (pat : List Char) : ∀ a b, containsCI pat b = true →
    containsCI pat (a ++ b) = true := by
  intro a
  induction a with
  | nil => intro b h; simpa using h
  | cons c cs ih =>
    intro b h
    rw [List.cons_append, containsCI]
    simp only [Bool.or_eq_true]
    exact Or.inr (ih b h)

/-- A substring of the left part occurs in an append. -/
theorem containsCI_append_left (pat : List Char) : ∀ m b, containsCI pat m = true →
    containsCI pat (m ++ b) = true := by
  intro m
  induction m with
  | nil =>
    intro b h
    rw [containsCI] at h
    cases pat with
    | nil => exact containsCI_nil_pat b
    | cons p ps => simp at h
  | cons c cs ih =>
    intro b h
    rw [containsCI] at h
    simp only [Bool.or_eq_true] at h
    rw [List.cons_append, containsCI]
    simp only [Bool.or_eq_true]
    rcases h with h | h
    · exact Or.inl (startsWithCI_append pat (c :: cs) b h)
    · exact Or.inr (ih b h)

/-- A substring of an infix occurs in the whole list. -/
theorem containsCI_infix (pat a m b : List Char) (h : containsCI pat m = true) :
    containsCI pat (a ++ (m ++ b)) = true :=
  containsCI_append_right pat a (m ++ b) (containsCI_append_left pat m b h)

/-- Unfolding a failed containment at a cons cell. -/
theorem containsCI_cons_false (pat : List Char) (c : Char) (cs : List Char)
    (h : containsCI pat (c :: cs) = false) :
    startsWithCI pat (c :: cs) = false ∧ containsCI pat cs = false := by
  rw [containsCI] at h
  simpa using h

/-- Dropping a prefix cannot shorten below zero: `dropWhile` length bound. -/
theorem dropWhile_ws_len (l : List Char) : (l.dropWhile isJsWs).length ≤ l.length := by
  induction l with
  | nil => simp [List.dropWhile]
  | cons c cs ih =>
    rw [List.dropWhile]
    split
    · simp only [List.length_cons]
      omega
    · simp

/-- The list after `dropWhile isJsWs` starts with a non-whitespace char. -/
theorem firstNonWs_dropWhile (l : List Char) : firstNonWs (l.dropWhile isJsWs) = true := by
  induction l with
  | nil => simp [List.dropWhile, firstNonWs]
  | cons c cs ih =>
    rw [List.dropWhile]
    split
    · exact ih
    · rename_i h
      rw [firstNonWs]
      simpa using h

/-- `dropWhile isJsWs` is the identity on lists with non-whitespace head. -/
theorem dropWhile_of_firstNonWs (l : List Char) (h : firstNonWs l = true) :
    l.dropWhile isJsWs = l := by
  cases l with
  | nil => simp [List.dropWhile]
  | cons c cs =>
    rw [firstNonWs] at h
    simp at h
    rw [List.dropWhile]
    simp [h]

/-- A head-trimmed list is a suffix decomposition of the original. -/
theorem dropTrailWs_prefix (m : List Char) : ∃ b, m = dropTrailWs m ++ b := by
  refine ⟨((m.reverse).takeWhile isJsWs).reverse, ?_⟩
  unfold dropTrailWs
  rw [← List.reverse_append, List.takeWhile_append_dropWhile, List.reverse_reverse]

/-- First-char property transfers from an append to its left part. -/
theorem firstNonWs_of_prefix (x b : List Char) (h : firstNonWs (x ++ b) = true) :
    firstNonWs x = true := by
  cases x with
  | nil => rfl
  | cons c cs =>
    rw [List.cons_append, firstNonWs] at h
    rw [firstNonWs]
    exact h

/-- The trimmed list starts with a non-whitespace character. -/
theorem jsTrim_head (l : List Char) : firstNonWs (jsTrim l) = true := by
  unfold jsTrim
  obtain ⟨b, hb⟩ := dropTrailWs_prefix (l.dropWhile isJsWs)
  have h1 := firstNonWs_dropWhile l
  rw [hb] at h1
  exact firstNonWs_of_prefix _ _ h1

/-- The trimmed list ends with a non-whitespace character. -/
theorem jsTrim_rev_head (l : List Char) : firstNonWs (jsTrim l).reverse = true := by
  unfold jsTrim dropTrailWs
  rw [List.reverse_reverse]
  exact firstNonWs_dropWhile _

/-- Trimming is the identity on lists with non-whitespace first and last
characters. -/
theorem jsTrim_of_nonWs_ends (l : List Char) (h1 : firstNonWs l = true)
    (h2 : firstNonWs l.reverse = true) : jsTrim l = l := by
  unfold jsTrim dropTrailWs
  rw [dropWhile_of_firstNonWs l h1]
  rw [dropWhile_of_firstNonWs l.reverse h2, List.reverse_reverse]

/-- Trimming is idempotent. -/
theorem jsTrim_idem (l : List Char) : jsTrim (jsTrim l) = jsTrim l :=
  jsTrim_of_nonWs_ends (jsTrim l) (jsTrim_head l) (jsTrim_rev_head l)

/-- The trim output is an infix of the input. -/
theorem jsTrim_decomp (l : List Char) : ∃ a b, l = a ++ (jsTrim l ++ b) := by
  obtain ⟨b, hb⟩ := dropTrailWs_prefix (l.dropWhile isJsWs)
  refine ⟨l.takeWhile isJsWs, b, ?_⟩
  unfold jsTrim
  rw [← hb, List.takeWhile_append_dropWhile]

/-- Block removal is the identity when the opening tag never occurs. -/
theorem stripBlocksF_id (tag : List Char) : ∀ fuel l,
    containsCI ('<' :: tag) l = false → stripBlocksF tag fuel l = l := by
  intro fuel
  induction fuel with
  | zero => intro l _; rfl
  | succ f ih =>
    intro l h
    cases l with
    | nil => rfl
    | cons c cs =>
      obtain ⟨h1, h2⟩ := containsCI_cons_false _ _ _ h
      rw [stripBlocksF, h1]
      simp only [Bool.false_and, Bool.false_eq_true, if_false]
      rw [ih cs h2]

/-- Comment removal is the identity when `<!--` never occurs. -/
theorem stripCommentsF_id (marker : List Char) : ∀ fuel l,
    containsCI ("<!--".data) l = false → stripCommentsF marker fuel l = l := by
  intro fuel
  induction fuel with
  | zero => intro l _; rfl
  | succ f ih =>
    intro l h
    cases l with
    | nil => rfl
    | cons c cs =>
      obtain ⟨h1, h2⟩ := containsCI_cons_false _ _ _ h
      rw [stripCommentsF, h1]
      simp only [Bool.false_eq_true, if_false]
      rw [ih cs h2]

/-- Attribute removal is the identity when `data-gtm-` never occurs. -/
theorem stripDataGtmF_id : ∀ fuel l,
    containsCI ("data-gtm-".data) l = false → stripDataGtmF fuel l = l := by
  intro fuel
  induction fuel with
  | zero => intro l _; rfl
  | succ f ih =>
    intro l h
    cases l with
    | nil => rfl
    | cons c cs =>
      obtain ⟨h1, h2⟩ := containsCI_cons_false _ _ _ h
      rw [stripDataGtmF, h1]
      simp only [Bool.false_eq_true, if_false]
      rw [ih cs h2]

/-- Call removal is the identity when `ga(` never occurs. -/
theorem stripGaF_id : ∀ fuel l,
    containsCI ("ga(".data) l = false → stripGaF fuel l = l := by
  intro fuel
  induction fuel with
  | zero => intro l _; rfl
  | succ f ih =>
    intro l h
    cases l with
    | nil => rfl
    | cons c cs =>
      obtain ⟨h1, h2⟩ := containsCI_cons_false _ _ _ h
      rw [stripGaF, h1]
      simp only [Bool.false_eq_true, if_false]
      rw [ih cs h2]

/-- A successful `>\s+<` match splits its input around the `<`. -/
theorem wsThenLt_spec (cs r : List Char) (h : wsThenLt cs = some r) :
    ∃ w, cs = w ++ ('<' :: r) := by
  cases cs with
  | nil => simp [wsThenLt] at h
  | cons a as =>
    rw [wsThenLt] at h
    split at h
    · rename_i ha
      cases hd : as.dropWhile isJsWs with
      | nil => rw [hd] at h; simp at h
      | cons d r2 =>
        rw [hd] at h
        simp at h
        obtain ⟨hdd, hr2⟩ := h
        subst hdd
        subst hr2
        refine ⟨a :: as.takeWhile isJsWs, ?_⟩
        rw [List.cons_append]
        congr 1
        rw [← hd]
        exact (List.takeWhile_append_dropWhile isJsWs as).symm
    · simp at h

/-- The remainder of a `>\s+<` match is shorter than the input. -/
theorem wsThenLt_len (cs r : List Char) (h : wsThenLt cs = some r) :
    r.length < cs.length := by
  obtain ⟨w, hw⟩ := wsThenLt_spec cs r h
  rw [hw]
  simp only [List.length_append, List.length_cons]
  omega

/-- No `>\s+<` match starts on a non-whitespace character. -/
theorem wsThenLt_none_of_firstNonWs (l : List Char) (h : firstNonWs l = true) :
    wsThenLt l = none := by
  cases l with
  | nil => rfl
  | cons c cs =>
    rw [firstNonWs] at h
    simp at h
    rw [wsThenLt]
    simp [h]

/-- A whitespace-free pattern prefix-matching the collapsed list also
prefix-matches the original. -/
theorem startsWithCI_collapseWsF (q : List Char) (hq : ∀ x ∈ q, isJsWs x = false) :
    ∀ fuel l, startsWithCI q (collapseWsF fuel l) = true → startsWithCI q l = true := by
  induction q with
  | nil => intro fuel l _; simp [startsWithCI]
  | cons p ps ih =>
    intro fuel l h
    cases fuel with
    | zero => exact h
    | succ f =>
      cases l with
      | nil => exact h
      | cons c cs =>
        rw [collapseWsF] at h
        split at h
        · rw [startsWithCI] at h
          simp only [Bool.and_eq_true] at h
          have hp := chEqCI_ws p ' ' h.1 (by decide)
          have hf := hq p (List.mem_cons_self p ps)
          simp [hp] at hf
        · rw [startsWithCI] at h ⊢
          simp only [Bool.and_eq_true] at h ⊢
          exact ⟨h.1, ih (fun x hx => hq x (List.mem_cons_of_mem p hx)) f cs h.2⟩

/-- A whitespace-free pattern occurring in the collapsed list also occurs in
the original. -/
theorem containsCI_collapseWsF (pat : List Char) (hq : ∀ x ∈ pat, isJsWs x = false) :
    ∀ fuel l, containsCI pat (collapseWsF fuel l) = true → containsCI pat l = true := by
  intro fuel
  induction fuel with
  | zero => intro l h; exact h
  | succ f ih =>
    intro l h
    cases l with
    | nil => exact h
    | cons c cs =>
      rw [collapseWsF] at h
      split at h
      · rw [containsCI] at h
        simp only [Bool.or_eq_true] at h
        rcases h with h1 | h1
        · cases pat with
          | nil => exact containsCI_nil_pat _
          | cons p ps =>
            rw [startsWithCI] at h1
            simp only [Bool.and_eq_true] at h1
            have hp := chEqCI_ws p ' ' h1.1 (by decide)
            have hf := hq p (List.mem_cons_self p ps)
            simp [hp] at hf
        · have h2 := ih (cs.dropWhile isJsWs) h1
          have h3 : containsCI pat cs = true := by
            have hsplit := List.takeWhile_append_dropWhile isJsWs cs
            rw [← hsplit]
            exact containsCI_append_right pat _ _ h2
          rw [containsCI]
          simp only [Bool.or_eq_true]
          exact Or.inr h3
      · rw [containsCI] at h
        simp only [Bool.or_eq_true] at h
        rcases h with h1 | h1
        · cases pat with
          | nil => exact containsCI_nil_pat _
          | cons p ps =>
            rw [startsWithCI] at h1
            simp only [Bool.and_eq_true] at h1
            have h2 := startsWithCI_collapseWsF ps (fun x hx => hq x (List.mem_cons_of_mem p hx)) f cs h1.2
            rw [containsCI]
            simp only [Bool.or_eq_true]
            left
            rw [startsWithCI]
            simp only [Bool.and_eq_true]
            exact ⟨h1.1, h2⟩
        · rw [containsCI]
          simp only [Bool.or_eq_true]
          exact Or.inr (ih cs h1)

/-- A `>`-free pattern prefix-matching the splice-removed list also
prefix-matches the original. -/
theorem startsWithCI_dwbF (q : List Char) (hq : ∀ x ∈ q, (x == '>') = false) :
    ∀ fuel l, startsWithCI q (dropWsBetweenF fuel l) = true → startsWithCI q l = true := by
  induction q with
  | nil => intro fuel l _; simp [startsWithCI]
  | cons p ps ih =>
    intro fuel l h
    cases fuel with
    | zero => exact h
    | succ f =>
      cases l with
      | nil => exact h
      | cons c cs =>
        rw [dropWsBetweenF] at h
        split at h
        · cases hw : wsThenLt cs with
          | some r =>
            rw [hw] at h
            rw [startsWithCI] at h
            simp only [Bool.and_eq_true] at h
            have hpgt := chEqCI_gt p '>' h.1 rfl
            have h2 := hq p (List.mem_cons_self p ps)
            rw [hpgt] at h2
            simp at h2
          | none =>
            rw [hw] at h
            rw [startsWithCI] at h
            simp only [Bool.and_eq_true] at h
            have hpgt := chEqCI_gt p '>' h.1 rfl
            have h2 := hq p (List.mem_cons_self p ps)
            rw [hpgt] at h2
            simp at h2
        · rw [startsWithCI] at h ⊢
          simp only [Bool.and_eq_true] at h ⊢
          exact ⟨h.1, ih (fun x hx => hq x (List.mem_cons_of_mem p hx)) f cs h.2⟩

/-- A `>`-free pattern occurring in the splice-removed list also occurs in
the original. -/
theorem containsCI_dwbF (pat : List Char) (hq : ∀ x ∈ pat, (x == '>') = false) :
    ∀ fuel l, containsCI pat (dropWsBetweenF fuel l) = true → containsCI pat l = true := by
  intro fuel
  induction fuel with
  | zero => intro l h; exact h
  | succ f ih =>
    intro l h
    cases l with
    | nil => exact h
    | cons c cs =>
      rw [dropWsBetweenF] at h
      split at h
      · cases hw : wsThenLt cs with
        | some r =>
          rw [hw] at h
          obtain ⟨w, hwspec⟩ := wsThenLt_spec cs r hw
          rw [containsCI] at h
          simp only [Bool.or_eq_true] at h
          rcases h with h1 | h1
          · cases pat with
            | nil => exact containsCI_nil_pat _
            | cons p ps =>
              rw [startsWithCI] at h1
              simp only [Bool.and_eq_true] at h1
              have hpgt := chEqCI_gt p '>' h1.1 rfl
              have h2 := hq p (List.mem_cons_self p ps)
              rw [hpgt] at h2
              simp at h2
          · rw [containsCI] at h1
            simp only [Bool.or_eq_true] at h1
            rcases h1 with h2 | h2
            · cases pat with
              | nil => exact containsCI_nil_pat _
              | cons p ps =>
                rw [startsWithCI] at h2
                simp only [Bool.and_eq_true] at h2
                have h3 := startsWithCI_dwbF ps (fun x hx => hq x (List.mem_cons_of_mem p hx)) f r h2.2
                have h4 : containsCI (p :: ps) ('<' :: r) = true := by
                  rw [containsCI]
                  simp only [Bool.or_eq_true]
                  left
                  rw [startsWithCI]
                  simp only [Bool.and_eq_true]
                  exact ⟨h2.1, h3⟩
                rw [containsCI]
                simp only [Bool.or_eq_true]
                right
                rw [hwspec]
                exact containsCI_append_right _ w _ h4
            · have h3 := ih r h2
              have h4 : containsCI pat ('<' :: r) = true := by
                rw [containsCI]
                simp only [Bool.or_eq_true]
                exact Or.inr h3
              rw [containsCI]
              simp only [Bool.or_eq_true]
              right
              rw [hwspec]
              exact containsCI_append_right _ w _ h4
        | none =>
          rw [hw] at h
          rw [containsCI] at h
          simp only [Bool.or_eq_true] at h
          rcases h with h1 | h1
          · cases pat with
            | nil => exact containsCI_nil_pat _
            | cons p ps =>
              rw [startsWithCI] at h1
              simp only [Bool.and_eq_true] at h1
              have hpgt := chEqCI_gt p '>' h1.1 rfl
              have h2 := hq p (List.mem_cons_self p ps)
              rw [hpgt] at h2
              simp at h2
          · rw [containsCI]
            simp only [Bool.or_eq_true]
            exact Or.inr (ih cs h1)
      · rw [containsCI] at h
        simp only [Bool.or_eq_true] at h
        rcases h with h1 | h1
        · cases pat with
          | nil => exact containsCI_nil_pat _
          | cons p ps =>
            rw [startsWithCI] at h1
            simp only [Bool.and_eq_true] at h1
            have h2 := startsWithCI_dwbF ps (fun x hx => hq x (List.mem_cons_of_mem p hx)) f cs h1.2
            rw [containsCI]
            simp only [Bool.or_eq_true]
            left
            rw [startsWithCI]
            simp only [Bool.and_eq_true]
            exact ⟨h1.1, h2⟩
        · rw [containsCI]
          simp only [Bool.or_eq_true]
          exact Or.inr (ih cs h1)

/-- A pattern occurring in the trimmed list also occurs in the original. -/
theorem containsCI_jsTrim (pat l : List Char) (h : containsCI pat (jsTrim l) = true) :
    containsCI pat l = true := by
  obtain ⟨a, b, hd⟩ := jsTrim_decomp l
  rw [hd]
  exact containsCI_infix pat a _ b h

/-- Unfolding `noAdjWs` at a cons cell in terms of `firstNonWs`. -/
theorem noAdjWs_cons_eq (c : Char) (rest : List Char) :
    noAdjWs (c :: rest) = ((!isJsWs c || firstNonWs rest) && noAdjWs rest) := by
  cases rest with
  | nil => simp [noAdjWs, firstNonWs]
  | cons d ds =>
    rw [noAdjWs, firstNonWs]
    simp [Bool.not_and]

/-- Unfolding `allWsSp` at a cons cell. -/
theorem allWsSp_cons (c : Char) (cs : List Char) :
    allWsSp (c :: cs) = ((!isJsWs c || c == ' ') && allWsSp cs) := by
  simp [allWsSp]

/-- Whitespace collapsing preserves a non-whitespace head. -/
theorem firstNonWs_collapseWsF (fuel : Nat) (l : List Char) (h : firstNonWs l = true) :
    firstNonWs (collapseWsF fuel l) = true := by
  cases fuel with
  | zero => exact h
  | succ f =>
    cases l with
    | nil => exact h
    | cons c cs =>
      rw [firstNonWs] at h
      simp at h
      rw [collapseWsF]
      simp [h, firstNonWs]

/-- Every whitespace character of the collapsed list is a plain space. -/
theorem allWsSp_collapseWsF : ∀ fuel l, l.length ≤ fuel →
    allWsSp (collapseWsF fuel l) = true := by
  intro fuel
  induction fuel with
  | zero =>
    intro l hf
    cases l with
    | nil => rfl
    | cons c cs => simp at hf
  | succ f ih =>
    intro l hf
    cases l with
    | nil => rfl
    | cons c cs =>
      rw [collapseWsF]
      by_cases hws : isJsWs c = true
      · rw [if_pos hws, allWsSp_cons]
        simp only [Bool.and_eq_true]
        refine ⟨by decide, ?_⟩
        have hlen : (cs.dropWhile isJsWs).length ≤ f := by
          have := dropWhile_ws_len cs
          simp only [List.length_cons] at hf
          omega
        exact ih _ hlen
      · rw [if_neg hws, allWsSp_cons]
        simp only [Bool.and_eq_true]
        constructor
        · simp at hws
          simp [hws]
        · have hlen : cs.length ≤ f := by
            simp only [List.length_cons] at hf
            omega
          exact ih _ hlen

/-- The collapsed list has no two adjacent whitespace characters. -/
theorem noAdjWs_collapseWsF : ∀ fuel l, l.length ≤ fuel →
    noAdjWs (collapseWsF fuel l) = true := by
  intro fuel
  induction fuel with
  | zero =>
    intro l hf
    cases l with
    | nil => rfl
    | cons c cs => simp at hf
  | succ f ih =>
    intro l hf
    cases l with
    | nil => rfl
    | cons c cs =>
      rw [collapseWsF]
      by_cases hws : isJsWs c = true
      · rw [if_pos hws, noAdjWs_cons_eq]
        simp only [Bool.and_eq_true]
        have hlen : (cs.dropWhile isJsWs).length ≤ f := by
          have := dropWhile_ws_len cs
          simp only [List.length_cons] at hf
          omega
        constructor
        · have hhead := firstNonWs_collapseWsF f (cs.dropWhile isJsWs) (firstNonWs_dropWhile cs)
          simp [hhead]
        · exact ih _ hlen
      · rw [if_neg hws, noAdjWs_cons_eq]
        simp only [Bool.and_eq_true]
        have hlen : cs.length ≤ f := by
          simp only [List.length_cons] at hf
          omega
        constructor
        · simp at hws
          simp [hws]
        · exact ih _ hlen

/-- Whitespace collapsing is the identity on already-normalized lists. -/
theorem collapseWsF_id : ∀ fuel l, allWsSp l = true → noAdjWs l = true →
    collapseWsF fuel l = l := by
  intro fuel
  induction fuel with
  | zero => intro l _ _; rfl
  | succ f ih =>
    intro l ha hn
    cases l with
    | nil => rfl
    | cons c cs =>
      rw [allWsSp_cons] at ha
      rw [noAdjWs_cons_eq] at hn
      simp only [Bool.and_eq_true] at ha hn
      rw [collapseWsF]
      by_cases hws : isJsWs c = true
      · rw [if_pos hws]
        have ha1 : isJsWs c = false ∨ c = ' ' := by simpa using ha.1
        have hc : c = ' ' := by
          rcases ha1 with h2 | h2
          · exact absurd hws (by simp [h2])
          · exact h2
        have hn1 : isJsWs c = false ∨ firstNonWs cs = true := by simpa using hn.1
        have hcs : firstNonWs cs = true := by
          rcases hn1 with h2 | h2
          · exact absurd hws (by simp [h2])
          · exact h2
        rw [dropWhile_of_firstNonWs cs hcs]
        rw [ih cs ha.2 hn.2, hc]
      · rw [if_neg hws]
        rw [ih cs ha.2 hn.2]

/-- The splice-removal pass preserves the head element. -/
theorem dwbF_head : ∀ fuel l, (dropWsBetweenF fuel l).head? = l.head? := by
  intro fuel
  cases fuel with
  | zero => intro l; rfl
  | succ f =>
    intro l
    cases l with
    | nil => rfl
    | cons c cs =>
      rw [dropWsBetweenF]
      by_cases hc : (c == '>') = true
      · rw [if_pos hc]
        have hceq : c = '>' := by simpa using hc
        cases hw : wsThenLt cs with
        | some r => subst hceq; rfl
        | none => subst hceq; rfl
      · rw [if_neg hc]
        rfl

/-- Lists with equal heads agree on `firstNonWs`. -/
theorem firstNonWs_head_eq (l m : List Char) (h : l.head? = m.head?) :
    firstNonWs l = firstNonWs m := by
  cases l with
  | nil =>
    cases m with
    | nil => rfl
    | cons d ds => simp at h
  | cons c cs =>
    cases m with
    | nil => simp at h
    | cons d ds =>
      simp at h
      rw [firstNonWs, firstNonWs, h]

/-- The splice-removal pass preserves `firstNonWs`. -/
theorem firstNonWs_dwbF (fuel : Nat) (l : List Char) :
    firstNonWs (dropWsBetweenF fuel l) = firstNonWs l :=
  firstNonWs_head_eq _ _ (dwbF_head fuel l)

/-- `allWsSp` splits across an append. -/
theorem allWsSp_append (a b : List Char) (h : allWsSp (a ++ b) = true) :
    allWsSp a = true ∧ allWsSp b = true := by
  simp only [allWsSp, List.all_append, Bool.and_eq_true] at h ⊢
  exact h

/-- `noAdjWs` restricts to the right part of an append. -/
theorem noAdjWs_append_right (a b : List Char) (h : noAdjWs (a ++ b) = true) :
    noAdjWs b = true := by
  induction a with
  | nil => simpa using h
  | cons c a' ih =>
    rw [List.cons_append, noAdjWs_cons_eq] at h
    simp only [Bool.and_eq_true] at h
    exact ih h.2

/-- `noAdjWs` restricts to the left part of an append. -/
theorem noAdjWs_append_left (m b : List Char) (h : noAdjWs (m ++ b) = true) :
    noAdjWs m = true := by
  induction m with
  | nil => rfl
  | cons c m' ih =>
    rw [List.cons_append, noAdjWs_cons_eq] at h
    simp only [Bool.and_eq_true] at h
    rw [noAdjWs_cons_eq]
    simp only [Bool.and_eq_true]
    refine ⟨?_, ih h.2⟩
    have h1 : isJsWs c = false ∨ firstNonWs (m' ++ b) = true := by simpa using h.1
    rcases h1 with h2 | h2
    · simp [h2]
    · cases m' with
      | nil => simp [firstNonWs]
      | cons d ds =>
        rw [List.cons_append, firstNonWs] at h2
        rw [firstNonWs]
        simp [h2]

/-- `noSplice` restricts to the right part of an append. -/
theorem noSplice_append_right (a b : List Char) (h : noSplice (a ++ b) = true) :
    noSplice b = true := by
  induction a with
  | nil => simpa using h
  | cons c a' ih =>
    rw [List.cons_append, noSplice] at h
    simp only [Bool.and_eq_true] at h
    exact ih h.2

/-- `dropWhile` distributes over an append that is stopped inside the left
part. -/
theorem dropWhile_ws_append (xs b : List Char) (d : Char) (rest : List Char)
    (h : xs.dropWhile isJsWs = d :: rest) :
    (xs ++ b).dropWhile isJsWs = d :: (rest ++ b) := by
  induction xs with
  | nil => simp [List.dropWhile] at h
  | cons x xs' ih =>
    rw [List.dropWhile_cons] at h
    rw [List.cons_append, List.dropWhile_cons]
    split at h
    · rename_i hx
      rw [if_pos hx]
      exact ih h
    · rename_i hx
      rw [if_neg hx]
      injection h with h1 h2
      rw [h1, h2]

/-- A `>\s+<` match survives appending on the right. -/
theorem wsThenLt_append (s b r : List Char) (h : wsThenLt s = some r) :
    wsThenLt (s ++ b) = some (r ++ b) := by
  cases s with
  | nil => simp [wsThenLt] at h
  | cons a as =>
    rw [wsThenLt] at h
    split at h
    · rename_i ha
      cases hd : as.dropWhile isJsWs with
      | nil => rw [hd] at h; simp at h
      | cons d r2 =>
        rw [hd] at h
        simp at h
        obtain ⟨hdd, hr2⟩ := h
        subst hdd
        rw [List.cons_append, wsThenLt, if_pos ha]
        rw [dropWhile_ws_append as b '<' r2 hd]
        simp [hr2]
    · simp at h

/-- `noSplice` restricts to the left part of an append. -/
theorem noSplice_append_left (m b : List Char) (h : noSplice (m ++ b) = true) :
    noSplice m = true := by
  induction m with
  | nil => rfl
  | cons c m' ih =>
    rw [List.cons_append, noSplice] at h
    simp only [Bool.and_eq_true] at h
    rw [noSplice]
    simp only [Bool.and_eq_true]
    refine ⟨?_, ih h.2⟩
    have h1 : (c == '>') = false ∨ wsThenLt (m' ++ b) = none := by
      simpa [Option.isNone_iff_eq_none] using h.1
    rcases h1 with h2 | h2
    · simp [h2]
    · cases hw : wsThenLt m' with
      | none => simp [hw]
      | some r =>
        exfalso
        have := wsThenLt_append m' b r hw
        rw [this] at h2
        simp at h2

/-- The splice-removal pass preserves the all-spaces property. -/
theorem allWsSp_dwbF : ∀ fuel l, allWsSp l = true → allWsSp (dropWsBetweenF fuel l) = true := by
  intro fuel
  induction fuel with
  | zero => intro l h; exact h
  | succ f ih =>
    intro l h
    cases l with
    | nil => rfl
    | cons c cs =>
      rw [allWsSp_cons] at h
      simp only [Bool.and_eq_true] at h
      rw [dropWsBetweenF]
      by_cases hc : (c == '>') = true
      · rw [if_pos hc]
        cases hw : wsThenLt cs with
        | some r =>
          obtain ⟨w, hwspec⟩ := wsThenLt_spec cs r hw
          have hr : allWsSp r = true := by
            have h2 := (allWsSp_append w _ (by rw [← hwspec]; exact h.2)).2
            rw [allWsSp_cons] at h2
            simp only [Bool.and_eq_true] at h2
            exact h2.2
          rw [allWsSp_cons, allWsSp_cons]
          simp only [Bool.and_eq_true]
          exact ⟨by decide, by decide, ih r hr⟩
        | none =>
          rw [allWsSp_cons]
          simp only [Bool.and_eq_true]
          exact ⟨by decide, ih cs h.2⟩
      · rw [if_neg hc]
        rw [allWsSp_cons]
        simp only [Bool.and_eq_true]
        exact ⟨h.1, ih cs h.2⟩

/-- The splice-removal pass preserves the no-adjacent-whitespace property. -/
theorem noAdjWs_dwbF : ∀ fuel l, noAdjWs l = true → noAdjWs (dropWsBetweenF fuel l) = true := by
  intro fuel
  induction fuel with
  | zero => intro l h; exact h
  | succ f ih =>
    intro l h
    cases l with
    | nil => rfl
    | cons c cs =>
      rw [noAdjWs_cons_eq] at h
      simp only [Bool.and_eq_true] at h
      rw [dropWsBetweenF]
      by_cases hc : (c == '>') = true
      · rw [if_pos hc]
        cases hw : wsThenLt cs with
        | some r =>
          obtain ⟨w, hwspec⟩ := wsThenLt_spec cs r hw
          have hr : noAdjWs r = true := by
            have h2 := noAdjWs_append_right w _ (by rw [← hwspec]; exact h.2)
            rw [noAdjWs_cons_eq] at h2
            simp only [Bool.and_eq_true] at h2
            exact h2.2
          rw [noAdjWs_cons_eq, noAdjWs_cons_eq]
          simp only [Bool.and_eq_true]
          have e1 : isJsWs '>' = false := by decide
          have e2 : isJsWs '<' = false := by decide
          refine ⟨by simp [e1], by simp [e2], ih r hr⟩
        | none =>
          rw [noAdjWs_cons_eq]
          simp only [Bool.and_eq_true]
          have e1 : isJsWs '>' = false := by decide
          refine ⟨by simp [e1], ih cs h.2⟩
      · rw [if_neg hc]
        rw [noAdjWs_cons_eq]
        simp only [Bool.and_eq_true]
        constructor
        · rw [firstNonWs_dwbF]
          exact h.1
        · exact ih cs h.2

/-- Under whitespace normal form, a successful `>\s+<` match pins down the
input shape: a single space directly followed by `<`. -/
theorem wsThenLt_normal (c : Char) (cs r : List Char)
    (ha : allWsSp (c :: cs) = true) (hn : noAdjWs (c :: cs) = true)
    (h : wsThenLt (c :: cs) = some r) : c = ' ' ∧ cs = '<' :: r := by
  rw [wsThenLt] at h
  split at h
  · rename_i hws
    rw [allWsSp_cons] at ha
    rw [noAdjWs_cons_eq] at hn
    simp only [Bool.and_eq_true] at ha hn
    have ha1 : isJsWs c = false ∨ c = ' ' := by simpa using ha.1
    have hc : c = ' ' := by
      rcases ha1 with h2 | h2
      · exact absurd hws (by simp [h2])
      · exact h2
    have hn1 : isJsWs c = false ∨ firstNonWs cs = true := by simpa using hn.1
    have hcs : firstNonWs cs = true := by
      rcases hn1 with h2 | h2
      · exact absurd hws (by simp [h2])
      · exact h2
    rw [dropWhile_of_firstNonWs cs hcs] at h
    cases cs with
    | nil => simp at h
    | cons d ds =>
      simp at h
      obtain ⟨hd, hds⟩ := h
      subst hd
      rw [hds]
      exact ⟨hc, rfl⟩
  · simp at h

/-- Under whitespace normal form, splice removal introduces no new `>\s+<`
match at a position where none existed. -/
theorem wsThenLt_none_dwbF (fuel : Nat) (cs : List Char)
    (ha : allWsSp cs = true) (hn : noAdjWs cs = true)
    (h : wsThenLt cs = none) : wsThenLt (dropWsBetweenF fuel cs) = none := by
  cases cs with
  | nil =>
    cases fuel with
    | zero => rfl
    | succ f => rfl
  | cons a as =>
    by_cases haws : isJsWs a = true
    · rw [allWsSp_cons] at ha
      rw [noAdjWs_cons_eq] at hn
      simp only [Bool.and_eq_true] at ha hn
      have ha1 : isJsWs a = false ∨ a = ' ' := by simpa using ha.1
      have hc : a = ' ' := by
        rcases ha1 with h2 | h2
        · exact absurd haws (by simp [h2])
        · exact h2
      have hn1 : isJsWs a = false ∨ firstNonWs as = true := by simpa using hn.1
      have hcs : firstNonWs as = true := by
        rcases hn1 with h2 | h2
        · exact absurd haws (by simp [h2])
        · exact h2
      rw [wsThenLt, if_pos haws, dropWhile_of_firstNonWs as hcs] at h
      cases fuel with
      | zero =>
        show wsThenLt (a :: as) = none
        rw [wsThenLt, if_pos haws, dropWhile_of_firstNonWs as hcs]
        exact h
      | succ f =>
        rw [dropWsBetweenF]
        have hangt : (a == '>') = false := by
          subst hc
          decide
        rw [hangt]
        simp only [Bool.false_eq_true, if_false]
        rw [wsThenLt, if_pos haws]
        have hfw : firstNonWs (dropWsBetweenF f as) = true := by
          rw [firstNonWs_dwbF]
          exact hcs
        rw [dropWhile_of_firstNonWs _ hfw]
        cases as with
        | nil =>
          cases f with
          | zero => rfl
          | succ f2 => rfl
        | cons d ds =>
          simp at h
          have hh := dwbF_head f (d :: ds)
          cases hXX : dropWsBetweenF f (d :: ds) with
          | nil => rfl
          | cons e es =>
            rw [hXX] at hh
            simp at hh
            simp [hh, h]
    · have hfnw : firstNonWs (a :: as) = true := by
        rw [firstNonWs]
        simp at haws
        simp [haws]
      have h2 : firstNonWs (dropWsBetweenF fuel (a :: as)) = true := by
        rw [firstNonWs_dwbF]
        exact hfnw
      exact wsThenLt_none_of_firstNonWs _ h2

/-- Under whitespace normal form and enough fuel, the splice-removal output
contains no `>\s+<` pattern at all. -/
theorem noSplice_dwbF : ∀ fuel l, l.length ≤ fuel → allWsSp l = true → noAdjWs l = true →
    noSplice (dropWsBetweenF fuel l) = true := by
  intro fuel
  induction fuel with
  | zero =>
    intro l hf _ _
    cases l with
    | nil => rfl
    | cons c cs => simp at hf
  | succ f ih =>
    intro l hf ha hn
    cases l with
    | nil => rfl
    | cons c cs =>
      simp only [List.length_cons] at hf
      have hacs : allWsSp cs = true := by
        rw [allWsSp_cons] at ha
        simp only [Bool.and_eq_true] at ha
        exact ha.2
      have hncs : noAdjWs cs = true := by
        rw [noAdjWs_cons_eq] at hn
        simp only [Bool.and_eq_true] at hn
        exact hn.2
      rw [dropWsBetweenF]
      by_cases hc : (c == '>') = true
      · rw [if_pos hc]
        cases hw : wsThenLt cs with
        | some r =>
          have hshape : cs = ' ' :: ('<' :: r) := by
            cases cs with
            | nil => simp [wsThenLt] at hw
            | cons a as =>
              obtain ⟨h1, h2⟩ := wsThenLt_normal a as r hacs hncs hw
              rw [h1, h2]
          have har : allWsSp r = true := by
            rw [hshape, allWsSp_cons, allWsSp_cons] at hacs
            simp only [Bool.and_eq_true] at hacs
            exact hacs.2.2
          have hnr : noAdjWs r = true := by
            rw [hshape, noAdjWs_cons_eq, noAdjWs_cons_eq] at hncs
            simp only [Bool.and_eq_true] at hncs
            exact hncs.2.2
          have hlen : r.length ≤ f := by
            rw [hshape] at hf
            simp only [List.length_cons] at hf
            omega
          rw [noSplice, noSplice]
          simp only [Bool.and_eq_true]
          refine ⟨?_, ?_, ih r hlen har hnr⟩
          · have hnone : wsThenLt ('<' :: dropWsBetweenF f r) = none := by
              apply wsThenLt_none_of_firstNonWs
              rw [firstNonWs]
              decide
            simp [hnone]
          · simp
        | none =>
          rw [noSplice]
          simp only [Bool.and_eq_true]
          have hlen : cs.length ≤ f := by omega
          refine ⟨?_, ih cs hlen hacs hncs⟩
          have hnone := wsThenLt_none_dwbF f cs hacs hncs hw
          simp [hnone]
      · rw [if_neg hc]
        rw [noSplice]
        simp only [Bool.and_eq_true]
        have hlen : cs.length ≤ f := by omega
        refine ⟨?_, ih cs hlen hacs hncs⟩
        simp at hc
        simp [hc]

/-- Splice removal is the identity on splice-free lists. -/
theorem dwbF_id_of_noSplice : ∀ fuel l, noSplice l = true → dropWsBetweenF fuel l = l := by
  intro fuel
  induction fuel with
  | zero => intro l _; rfl
  | succ f ih =>
    intro l h
    cases l with
    | nil => rfl
    | cons c cs =>
      rw [noSplice] at h
      simp only [Bool.and_eq_true] at h
      rw [dropWsBetweenF]
      by_cases hc : (c == '>') = true
      · rw [if_pos hc]
        have h1 : (c == '>') = false ∨ wsThenLt cs = none := by
          simpa [Option.isNone_iff_eq_none] using h.1
        have hw : wsThenLt cs = none := by
          rcases h1 with h2 | h2
          · rw [hc] at h2
            cases h2
          · exact h2
        rw [hw]
        have hceq : c = '>' := by simpa using hc
        rw [hceq, ih cs h.2]
      · rw [if_neg hc]
        rw [ih cs h.2]

/-- Wrapper-level: collapsed output has only plain-space whitespace. -/
theorem allWsSp_collapseWs (l : List Char) : allWsSp (collapseWs l) = true :=
  allWsSp_collapseWsF l.length l (le_refl _)

/-- Wrapper-level: collapsed output has no adjacent whitespace. -/
theorem noAdjWs_collapseWs (l : List Char) : noAdjWs (collapseWs l) = true :=
  noAdjWs_collapseWsF l.length l (le_refl _)

/-- Wrapper-level: splice removal preserves the all-spaces property. -/
theorem allWsSp_dropWsBetween (l : List Char) (h : allWsSp l = true) :
    allWsSp (dropWsBetween l) = true :=
  allWsSp_dwbF l.length l h

/-- Wrapper-level: splice removal preserves no-adjacent-whitespace. -/
theorem noAdjWs_dropWsBetween (l : List Char) (h : noAdjWs l = true) :
    noAdjWs (dropWsBetween l) = true :=
  noAdjWs_dwbF l.length l h

/-- Wrapper-level: splice removal of a normalized list leaves no matches. -/
theorem noSplice_dropWsBetween (l : List Char) (ha : allWsSp l = true)
    (hn : noAdjWs l = true) : noSplice (dropWsBetween l) = true :=
  noSplice_dwbF l.length l (le_refl _) ha hn

/-- Wrapper-level: collapsing a normalized list is the identity. -/
theorem collapseWs_id (l : List Char) (ha : allWsSp l = true) (hn : noAdjWs l = true) :
    collapseWs l = l :=
  collapseWsF_id l.length l ha hn

/-- Wrapper-level: splice removal on a splice-free list is the identity. -/
theorem dropWsBetween_id (l : List Char) (hsp : noSplice l = true) :
    dropWsBetween l = l :=
  dwbF_id_of_noSplice l.length l hsp

/-- On inputs containing none of the six removal triggers, `cleanHTML`
reduces to its pure whitespace-normalization stage. -/
theorem cleanHTMLList_triggerFree (l : List Char)
    (h1 : containsCI ("<script".data) l = false)
    (h2 : containsCI ("<iframe".data) l = false)
    (h3 : containsCI ("<noscript".data) l = false)
    (h4 : containsCI ("<!--".data) l = false)
    (h5 : containsCI ("data-gtm-".data) l = false)
    (h6 : containsCI ("ga(".data) l = false) :
    cleanHTMLList l = jsTrim (dropWsBetween (collapseWs l)) := by
  have b1 : stripBlocks ("script".data) l = l := stripBlocksF_id ("script".data) l.length l h1
  have b2 : stripBlocks ("iframe".data) l = l := stripBlocksF_id ("iframe".data) l.length l h2
  have b3 : stripBlocks ("noscript".data) l = l := stripBlocksF_id ("noscript".data) l.length l h3
  have b4 : stripComments ("Google Analytics".data) l = l :=
    stripCommentsF_id ("Google Analytics".data) l.length l h4
  have b5 : stripComments ("gtag".data) l = l := stripCommentsF_id ("gtag".data) l.length l h4
  have b6 : stripDataGtm l = l := stripDataGtmF_id l.length l h5
  have b7 : stripGa l = l := stripGaF_id l.length l h6
  simp only [cleanHTMLList, b1, b2, b3, b4, b5, b6, b7]

/-- A whitespace-free, `>`-free pattern contained in the whitespace stage
output is contained in the input. -/
theorem wsStage_transfer (pat l : List Char) (hws : ∀ x ∈ pat, isJsWs x = false)
    (hgt : ∀ x ∈ pat, (x == '>') = false)
    (h : containsCI pat (jsTrim (dropWsBetween (collapseWs l))) = true) :
    containsCI pat l = true := by
  have s1 := containsCI_jsTrim pat _ h
  have s2 : containsCI pat (collapseWs l) = true := containsCI_dwbF pat hgt _ _ s1
  exact containsCI_collapseWsF pat hws _ _ s2

/-- Data of a constructed string. -/
theorem string_mk_data (l : List Char) : (String.mk l).data = l := rfl

/-- `cleanHTMLList` is the whitespace chain applied to the removal stage. -/
theorem cleanHTMLList_eq (l : List Char) :
    cleanHTMLList l = jsTrim (dropWsBetween (collapseWs (stripStages l))) := rfl

/-- The whitespace chain (collapse, inter-tag removal, trim) is idempotent
on every input: one application reaches its normal form. -/
theorem wsChain_idem (w : List Char) :
    jsTrim (dropWsBetween (collapseWs (jsTrim (dropWsBetween (collapseWs w))))) =
      jsTrim (dropWsBetween (collapseWs w)) := by
  have wa := allWsSp_dropWsBetween _ (allWsSp_collapseWs w)
  have wn := noAdjWs_dropWsBetween _ (noAdjWs_collapseWs w)
  have wsp := noSplice_dropWsBetween _ (allWsSp_collapseWs w) (noAdjWs_collapseWs w)
  obtain ⟨a, b, hdec⟩ := jsTrim_decomp (dropWsBetween (collapseWs w))
  rw [hdec] at wa wn wsp
  have ya := (allWsSp_append _ b ((allWsSp_append a _ wa).2)).1
  have yn := noAdjWs_append_left _ b (noAdjWs_append_right a _ wn)
  have ysp := noSplice_append_left _ b (noSplice_append_right a _ wsp)
  rw [collapseWs_id _ ya yn, dropWsBetween_id _ ysp]
  exact jsTrim_idem _

/-- C3 (amended): for every input on which the removal stage — the three
block removals and the four tracking-pattern removals, in source order —
leaves no case-insensitive occurrence of `<script`, `<iframe` or
`<noscript` (that is, no occurrence survives unclosed or is spliced
together by a removal), the sanitizer output contains no such occurrence:
the subsequent whitespace stages never reintroduce one.  In particular
every input whose tag occurrences lie in complete removable blocks is
covered.  (The unrestricted claim is false: unclosed tags pass through
verbatim and removal can splice new tags together, see the
counterexample.) -/
theorem c3_sanitizer_trigger_free (s : String)
    (h1 : containsCI ("<script".data) (stripStages s.data) = false)
    (h2 : containsCI ("<iframe".data) (stripStages s.data) = false)
    (h3 : containsCI ("<noscript".data) (stripStages s.data) = false) :
    containsCI ("<script".data) ((cleanHTML s).data) = false ∧
    containsCI ("<iframe".data) ((cleanHTML s).data) = false ∧
    containsCI ("<noscript".data) ((cleanHTML s).data) = false := by
  have hdata : (cleanHTML s).data = cleanHTMLList s.data := by
    simp only [cleanHTML, string_mk_data]
  rw [hdata, cleanHTMLList_eq]
  refine ⟨?_, ?_, ?_⟩
  · by_contra hx
    rw [Bool.not_eq_false] at hx
    have := wsStage_transfer ("<script".data) (stripStages s.data) (by decide) (by decide) hx
    exact absurd this (by simp [h1])
  · by_contra hx
    rw [Bool.not_eq_false] at hx
    have := wsStage_transfer ("<iframe".data) (stripStages s.data) (by decide) (by decide) hx
    exact absurd this (by simp [h2])
  · by_contra hx
    rw [Bool.not_eq_false] at hx
    have := wsStage_transfer ("<noscript".data) (stripStages s.data) (by decide) (by decide) hx
    exact absurd this (by simp [h3])

/-- C3 witness: a page that does contain a complete removable script block
satisfies the hypothesis (the block is removed by the removal stage) and
its sanitized output is trigger-free. -/
theorem c3_sanitizer_trigger_free_witness :
    containsCI ("<script".data) ((cleanHTML "<div><script>a</script></div>").data) = false ∧
    containsCI ("<iframe".data) ((cleanHTML "<div><script>a</script></div>").data) = false ∧
    containsCI ("<noscript".data) ((cleanHTML "<div><script>a</script></div>").data) = false :=
  c3_sanitizer_trigger_free "<div><script>a</script></div>"
    (by decide) (by decide) (by decide)

/-- C3 counterexample: an unclosed `<script` has no matching `</script>`
close, so the removal regex does not fire and the substring `<script`
survives into the sanitizer output, refuting the unrestricted claim. -/
theorem c3_counterexample :
    cleanHTML "<script" = "<script" ∧
    containsCI ("<script".data) ((cleanHTML "<script").data) = true := by
  exact ⟨by decide, by decide⟩

/-- C4 (amended): `cleanHTML` is idempotent on every input whose single
pass leaves none of the six removal triggers — `<script`, `<iframe`,
`<noscript`, `<!--`, `data-gtm-`, `ga(`, case-insensitively — in the
OUTPUT; in particular on ordinary pages with complete removable blocks.
(Unrestricted idempotence is false: the single-pass global replace can
splice a fresh removable block out of the surroundings of a removed one,
which only the second application removes — see the counterexample.) -/
theorem c4_cleanHTML_idempotent_trigger_free (s : String)
    (h1 : containsCI ("<script".data) ((cleanHTML s).data) = false)
    (h2 : containsCI ("<iframe".data) ((cleanHTML s).data) = false)
    (h3 : containsCI ("<noscript".data) ((cleanHTML s).data) = false)
    (h4 : containsCI ("<!--".data) ((cleanHTML s).data) = false)
    (h5 : containsCI ("data-gtm-".data) ((cleanHTML s).data) = false)
    (h6 : containsCI ("ga(".data) ((cleanHTML s).data) = false) :
    cleanHTML (cleanHTML s) = cleanHTML s := by
  have hdata : (cleanHTML s).data = cleanHTMLList s.data := by
    simp only [cleanHTML, string_mk_data]
  rw [hdata] at h1 h2 h3 h4 h5 h6
  have hclean2 := cleanHTMLList_triggerFree (cleanHTMLList s.data) h1 h2 h3 h4 h5 h6
  have e2 : cleanHTML (cleanHTML s) = String.mk (cleanHTMLList (cleanHTMLList s.data)) := by
    simp only [cleanHTML, string_mk_data]
  have e1 : cleanHTML s = String.mk (cleanHTMLList s.data) := by
    simp only [cleanHTML]
  have hAB : cleanHTMLList (cleanHTMLList s.data) = cleanHTMLList s.data := by
    rw [hclean2, cleanHTMLList_eq s.data]
    exact wsChain_idem (stripStages s.data)
  rw [e2, e1, hAB]

/-- C4 witness: idempotence at a concrete page containing a complete,
removable script block. -/
theorem c4_cleanHTML_idempotent_witness :
    cleanHTML (cleanHTML "<div><script>a</script></div>") =
      cleanHTML "<div><script>a</script></div>" :=
  c4_cleanHTML_idempotent_trigger_free "<div><script>a</script></div>"
    (by decide) (by decide) (by decide) (by decide) (by decide) (by decide)

/-- C4 counterexample: removing the complete inner block of
`<scr<script>q</script>ipt>hello</script>` splices the surrounding text into
a fresh `<script>hello</script>`, so a second application removes more and
`cleanHTML (cleanHTML x) ≠ cleanHTML x`. -/
theorem c4_counterexample :
    cleanHTML spliceInput = "<script>hello</script>" ∧
    cleanHTML (cleanHTML spliceInput) = "" ∧
    cleanHTML (cleanHTML spliceInput) ≠ cleanHTML spliceInput := by
  refine ⟨by decide, by decide, by decide⟩

/-- C5: when the raw model reply is the fenced text
three-backticks json, the JSON object line, three-backticks — the
response-coercion step (trim, strip fences, narrow to first-to-last brace,
parse) yields exactly the pair sqlSchema = A, nodeRoute = B, and
`generateBackendCode` returns that pair. -/
theorem c5_fenced_reply_extraction (jem : String → String) :
    cleanContent fencedReply.data = ("\x7b\"sqlSchema\":\"A\",\"nodeRoute\":\"B\"\x7d".data) ∧
    jsonParse (cleanContent fencedReply.data) =
      some (JsValue.obj [("sqlSchema".data, JsValue.str ("A".data)),
                         ("nodeRoute".data, JsValue.str ("B".data))]) ∧
    generateBackendCode jem true true (GenOutcome.reply fencedReply) =
      Except.ok ⟨JsValue.str ("A".data), JsValue.str ("B".data)⟩ :=
  ⟨rfl, rfl, rfl⟩

/-- C9: the prompt template embeds exactly the first min(length, 6000)
characters of the input markup between a fixed head and tail; the embedded
portion is a prefix of the input (the 6000-character cut sits inside the
spec's stated 6000-8000 budget). -/
theorem c9_prompt_truncation (h : String) :
    (promptFor h).data = promptHead.data ++ (((h.data).take 6000) ++ promptTail.data) ∧
    ((h.data).take 6000).length = min 6000 (h.data).length ∧
    (h.data).take 6000 ++ (h.data).drop 6000 = h.data := by
  refine ⟨?_, List.length_take 6000 h.data, List.take_append_drop 6000 h.data⟩
  simp [promptFor, String.data_append, string_mk_data]

/-- C1 counterexample: an internal failure whose message carries the
rate-limit marker is re-thrown past the boundary with a canned message
instead of receiving fallback substitution, refuting the claim that every
classified failure category is handled identically by fallback. -/
theorem c1_counterexample :
    generateBackendCode jemNone true true (GenOutcome.apiError "RATE_LIMIT") =
      Except.error "Gemini API rate limit exceeded. Please try again later." ∧
    generateBackendCode jemNone true true (GenOutcome.apiError "RATE_LIMIT") ≠
      Except.ok getFallbackCode := by
  constructor
  · rfl
  · intro hcon
    rw [show generateBackendCode jemNone true true (GenOutcome.apiError "RATE_LIMIT") =
        Except.error "Gemini API rate limit exceeded. Please try again later." from rfl] at hcon
    exact Except.noConfusion hcon

/-- C1 (amended): every error `generateBackendCode` raises past its
boundary is one of the four canned classified messages (credential, rate
limit, quota, safety block); every internal failure whose message contains
none of the six classified substrings is absorbed and replaced by the
fallback pair.  The classified categories are re-thrown, not substituted —
see the counterexample for the original claim. -/
theorem c1_classified_errors (jem : String → String) (k c : Bool) (o : GenOutcome) :
    (∀ m, generateBackendCode jem k c o = Except.error m →
      m = "Invalid or missing Gemini API key. Check your .env file." ∨
      m = "Gemini API rate limit exceeded. Please try again later." ∨
      m = "Gemini API quota exceeded. Check your Google Cloud quota." ∨
      m = "Content was blocked by Gemini safety filters.") ∧
    (∀ m, tryGenerate jem k c o = Except.error m →
      (∀ p ∈ classifiedSubstrings, containsCS p m.data = false) →
      generateBackendCode jem k c o = Except.ok getFallbackCode) := by
  constructor
  · intro m hm
    rw [generateBackendCode] at hm
    cases htry : tryGenerate jem k c o with
    | ok v =>
      rw [htry] at hm
      exact Except.noConfusion hm
    | error m0 =>
      rw [htry] at hm
      have hm2 : classifyCatch m0 = Except.error m := hm
      unfold classifyCatch at hm2
      by_cases h1 : (m0 != "" && (containsCS ("API_KEY".data) m0.data ||
          containsCS ("API key".data) m0.data)) = true
      · rw [if_pos h1] at hm2
        exact Or.inl (Except.error.inj hm2).symm
      · rw [if_neg h1] at hm2
        by_cases h2 : (m0 != "" && containsCS ("RATE_LIMIT".data) m0.data) = true
        · rw [if_pos h2] at hm2
          exact Or.inr (Or.inl (Except.error.inj hm2).symm)
        · rw [if_neg h2] at hm2
          by_cases h3 : (m0 != "" && (containsCS ("QUOTA".data) m0.data ||
              containsCS ("quota".data) m0.data)) = true
          · rw [if_pos h3] at hm2
            exact Or.inr (Or.inr (Or.inl (Except.error.inj hm2).symm))
          · rw [if_neg h3] at hm2
            by_cases h4 : (m0 != "" && containsCS ("blocked".data) m0.data) = true
            · rw [if_pos h4] at hm2
              exact Or.inr (Or.inr (Or.inr (Except.error.inj hm2).symm))
            · rw [if_neg h4] at hm2
              exact Except.noConfusion hm2
  · intro m hm hsub
    have hA := hsub ("API_KEY".data) (by decide)
    have hB := hsub ("API key".data) (by decide)
    have hC := hsub ("RATE_LIMIT".data) (by decide)
    have hD := hsub ("QUOTA".data) (by decide)
    have hE := hsub ("quota".data) (by decide)
    have hF := hsub ("blocked".data) (by decide)
    have hgoal : classifyCatch m = Except.ok getFallbackCode := by
      unfold classifyCatch
      rw [hA, hB, hC, hD, hE, hF]
      simp only [Bool.or_false, Bool.and_false, Bool.false_eq_true, if_false]
    rw [generateBackendCode, hm]
    exact hgoal

/-- C1 witness: an unclassified socket error is absorbed into the fallback
pair, while a rate-limited call surfaces one of the canned classified
messages. -/
theorem c1_classified_errors_witness :
    generateBackendCode jemNone true true (GenOutcome.apiError "socket hang up") =
      Except.ok getFallbackCode ∧
    ("Gemini API rate limit exceeded. Please try again later." =
        "Invalid or missing Gemini API key. Check your .env file." ∨
      "Gemini API rate limit exceeded. Please try again later." =
        "Gemini API rate limit exceeded. Please try again later." ∨
      "Gemini API rate limit exceeded. Please try again later." =
        "Gemini API quota exceeded. Check your Google Cloud quota." ∨
      "Gemini API rate limit exceeded. Please try again later." =
        "Content was blocked by Gemini safety filters.") :=
  ⟨(c1_classified_errors jemNone true true (GenOutcome.apiError "socket hang up")).2
      "socket hang up" rfl (by decide),
   (c1_classified_errors jemNone true true (GenOutcome.apiError "RATE_LIMIT")).1
      "Gemini API rate limit exceeded. Please try again later." rfl⟩

/-- C2: a model reply that does not parse as JSON (whenever the
engine-supplied parse-error message carries none of the six classified
substrings), or that parses with the `sqlSchema` or `nodeRoute` member
missing or equal to the empty string, makes `generateBackendCode` return
exactly the fixed fallback pair of `getFallbackCode` without raising. -/
theorem c2_malformed_reply_fallback (jem : String → String) (t : String) :
    (jsonParse (cleanContent t.data) = none →
      (∀ p ∈ classifiedSubstrings,
        containsCS p (("AI returned invalid JSON: " ++
          jem (String.mk (cleanContent t.data))).data) = false) →
      generateBackendCode jem true true (GenOutcome.reply t) = Except.ok getFallbackCode) ∧
    (∀ v, jsonParse (cleanContent t.data) = some v →
      (objGet ("sqlSchema".data) v = none ∨ objGet ("sqlSchema".data) v = some (JsValue.str []) ∨
       objGet ("nodeRoute".data) v = none ∨ objGet ("nodeRoute".data) v = some (JsValue.str [])) →
      generateBackendCode jem true true (GenOutcome.reply t) = Except.ok getFallbackCode) := by
  constructor
  · intro hparse hsub
    have hA := hsub ("API_KEY".data) (by decide)
    have hB := hsub ("API key".data) (by decide)
    have hC := hsub ("RATE_LIMIT".data) (by decide)
    have hD := hsub ("QUOTA".data) (by decide)
    have hE := hsub ("quota".data) (by decide)
    have hF := hsub ("blocked".data) (by decide)
    have htry : tryGenerate jem true true (GenOutcome.reply t) =
        Except.error ("AI returned invalid JSON: " ++ jem (String.mk (cleanContent t.data))) := by
      simp [tryGenerate, hparse]
    have hgoal : classifyCatch ("AI returned invalid JSON: " ++
        jem (String.mk (cleanContent t.data))) = Except.ok getFallbackCode := by
      unfold classifyCatch
      rw [hA, hB, hC, hD, hE, hF]
      simp only [Bool.or_false, Bool.and_false, Bool.false_eq_true, if_false]
    rw [generateBackendCode, htry]
    exact hgoal
  · intro v hv hcase
    have hfalsy : (!jsTruthyOpt (objGet ("sqlSchema".data) v) ||
        !jsTruthyOpt (objGet ("nodeRoute".data) v)) = true := by
      rcases hcase with h | h | h | h
      all_goals simp [h, jsTruthyOpt, jsTruthy]
    have htry : tryGenerate jem true true (GenOutcome.reply t) =
        Except.error "AI response missing required fields (sqlSchema or nodeRoute)" := by
      simp [tryGenerate, hv, hfalsy]
    rw [generateBackendCode, htry]
    rfl

/-- C2 witness: a non-JSON reply and a reply missing `nodeRoute` both
collapse to the fallback pair. -/
theorem c2_malformed_reply_fallback_witness :
    jsonParse (cleanContent ("not json".data)) = none ∧
    generateBackendCode jemNone true true (GenOutcome.reply "not json") =
      Except.ok getFallbackCode ∧
    generateBackendCode jemNone true true (GenOutcome.reply "\x7b\"sqlSchema\":\"A\"\x7d") =
      Except.ok getFallbackCode :=
  ⟨rfl,
   (c2_malformed_reply_fallback jemNone "not json").1 rfl (by decide),
   (c2_malformed_reply_fallback jemNone "\x7b\"sqlSchema\":\"A\"\x7d").2
      (JsValue.obj [("sqlSchema".data, JsValue.str ("A".data))]) rfl
      (Or.inr (Or.inr (Or.inl rfl)))⟩

/-- Bind on `Except` propagates an error. -/
theorem except_bind_error {α β : Type} (e : String) (f : α → Except String β) :
    ((Except.error e : Except String α) >>= f) = Except.error e := rfl

/-- Bind on `Except` continues after a success. -/
theorem except_bind_ok {α β : Type} (a : α) (f : α → Except String β) :
    ((Except.ok a : Except String α) >>= f) = f a := rfl

/-- A failing scrape run fails with the message of one of its awaited
browser operations. -/
theorem runScrapeSteps_error (env : ScrapeEnv) (m : String)
    (h : runScrapeSteps env = Except.error m) :
    env.newPage = Except.error m ∨ env.setViewport = Except.error m ∨
    env.setUserAgent = Except.error m ∨ env.goto = Except.error m ∨
    env.waitAfterLoad = Except.error m ∨ env.scrollEval = Except.error m ∨
    env.waitAfterScroll = Except.error m ∨ env.extractEval = Except.error m := by
  rw [runScrapeSteps] at h
  cases h1 : env.newPage with
  | error e =>
    rw [h1, except_bind_error] at h
    exact Or.inl (congrArg Except.error (Except.error.inj h))
  | ok u =>
    cases u
    rw [h1, except_bind_ok] at h
    cases h2 : env.setViewport with
    | error e =>
      rw [h2, except_bind_error] at h
      exact Or.inr (Or.inl (congrArg Except.error (Except.error.inj h)))
    | ok u =>
      cases u
      rw [h2, except_bind_ok] at h
      cases h3 : env.setUserAgent with
      | error e =>
        rw [h3, except_bind_error] at h
        exact Or.inr (Or.inr (Or.inl (congrArg Except.error (Except.error.inj h))))
      | ok u =>
        cases u
        rw [h3, except_bind_ok] at h
        cases h4 : env.goto with
        | error e =>
          rw [h4, except_bind_error] at h
          exact Or.inr (Or.inr (Or.inr (Or.inl (congrArg Except.error (Except.error.inj h)))))
        | ok u =>
          cases u
          rw [h4, except_bind_ok] at h
          cases h5 : env.waitAfterLoad with
          | error e =>
            rw [h5, except_bind_error] at h
            exact Or.inr (Or.inr (Or.inr (Or.inr (Or.inl (congrArg Except.error (Except.error.inj h))))))
          | ok u =>
            cases u
            rw [h5, except_bind_ok] at h
            cases h6 : env.scrollEval with
            | error e =>
              rw [h6, except_bind_error] at h
              exact Or.inr (Or.inr (Or.inr (Or.inr (Or.inr (Or.inl
                (congrArg Except.error (Except.error.inj h)))))))
            | ok u =>
              cases u
              rw [h6, except_bind_ok] at h
              cases h7 : env.waitAfterScroll with
              | error e =>
                rw [h7, except_bind_error] at h
                exact Or.inr (Or.inr (Or.inr (Or.inr (Or.inr (Or.inr (Or.inl
                  (congrArg Except.error (Except.error.inj h))))))))
              | ok u =>
                cases u
                rw [h7, except_bind_ok] at h
                cases h8 : env.extractEval with
                | error e =>
                  rw [h8, except_bind_error] at h
                  exact Or.inr (Or.inr (Or.inr (Or.inr (Or.inr (Or.inr (Or.inr
                    (congrArg Except.error (Except.error.inj h))))))))
                | ok d =>
                  rw [h8, except_bind_ok] at h
                  exact Except.noConfusion h

/-- C6: on every effect trace, `scrapeWebsite` closes the browser exactly
when it launched one (release is unconditional on both the success and the
failure exit paths), and any propagated error is the original failing
operation message wrapped in the fixed `Failed to scrape website: ` text. -/
theorem c6_browser_release (env : ScrapeEnv) :
    (scrapeWebsite env).browserClosed = (scrapeWebsite env).browserLaunched ∧
    (∀ m, (scrapeWebsite env).result = Except.error m →
      ∃ orig, m = "Failed to scrape website: " ++ orig ∧
        (env.launch = Except.error orig ∨ env.newPage = Except.error orig ∨
         env.setViewport = Except.error orig ∨ env.setUserAgent = Except.error orig ∨
         env.goto = Except.error orig ∨ env.waitAfterLoad = Except.error orig ∨
         env.scrollEval = Except.error orig ∨ env.waitAfterScroll = Except.error orig ∨
         env.extractEval = Except.error orig)) := by
  cases hl : env.launch with
  | error m0 =>
    constructor
    · simp only [scrapeWebsite, hl]
    · intro m hm
      simp only [scrapeWebsite, hl] at hm
      exact ⟨m0, (Except.error.inj hm).symm, Or.inl rfl⟩
  | ok u =>
    cases u
    cases hr : runScrapeSteps env with
    | ok r =>
      constructor
      · simp only [scrapeWebsite, hl, hr]
      · intro m hm
        simp only [scrapeWebsite, hl, hr] at hm
        exact Except.noConfusion hm
    | error m0 =>
      constructor
      · simp only [scrapeWebsite, hl, hr]
      · intro m hm
        simp only [scrapeWebsite, hl, hr] at hm
        have h3 := runScrapeSteps_error env m0 hr
        refine ⟨m0, (Except.error.inj hm).symm, ?_⟩
        tauto

/-- C6 witness: a navigation timeout trace still reports the browser as
closed and wraps the original timeout message. -/
theorem c6_browser_release_witness :
    (scrapeWebsite envGotoTimeout).browserClosed = (scrapeWebsite envGotoTimeout).browserLaunched ∧
    ∃ orig, "Failed to scrape website: Navigation timeout of 45000 ms exceeded" =
        "Failed to scrape website: " ++ orig ∧
      (envGotoTimeout.launch = Except.error orig ∨ envGotoTimeout.newPage = Except.error orig ∨
       envGotoTimeout.setViewport = Except.error orig ∨
       envGotoTimeout.setUserAgent = Except.error orig ∨
       envGotoTimeout.goto = Except.error orig ∨
       envGotoTimeout.waitAfterLoad = Except.error orig ∨
       envGotoTimeout.scrollEval = Except.error orig ∨
       envGotoTimeout.waitAfterScroll = Except.error orig ∨
       envGotoTimeout.extractEval = Except.error orig) :=
  ⟨(c6_browser_release envGotoTimeout).1,
   (c6_browser_release envGotoTimeout).2
     "Failed to scrape website: Navigation timeout of 45000 ms exceeded" rfl⟩

/-- Reduction of `handleClone` on a present, non-empty `url` field: the
result is the invalid-URL response or the pipeline outcome, by the URL
check. -/
theorem handleClone_some (cfg : EnvConfig) (ok : String → Bool)
    (scrape : String → Except JsError ScrapeResult)
    (gen : String → Except JsError GeneratedCode)
    (t ts u : String) (hne : u ≠ "") :
    handleClone cfg ok scrape gen t ts (some u) =
      (if ok u then
        (match scrape u with
         | Except.error e =>
           ⟨500, RespBody.failure
               (if e.message == "" then "Internal server error" else e.message)
               "Failed to clone website. Please check the URL and try again."
               (if cfg.nodeEnv == "development" then some e.stack else none),
             true, false⟩
         | Except.ok sr =>
           match gen sr.html with
           | Except.error e =>
             ⟨500, RespBody.failure
                 (if e.message == "" then "Internal server error" else e.message)
                 "Failed to clone website. Please check the URL and try again."
                 (if cfg.nodeEnv == "development" then some e.stack else none),
               true, true⟩
           | Except.ok g =>
             ⟨200, RespBody.success ⟨sr.html, sr.css, g.sqlSchema, g.nodeRoute, u, t, ts⟩,
               true, true⟩)
       else
        ⟨400, RespBody.validationError "Invalid URL" "Please provide a valid URL format",
          false, false⟩) := by
  unfold handleClone
  rw [if_neg (by simp [hne])]
  simp only [Option.getD_some]
  by_cases hok : ok u = true
  · rw [if_neg (by simp [hok]), if_pos hok]
  · rw [if_pos (by simp [Bool.not_eq_true] at hok; simp [hok]), if_neg hok]

/-- Reduction of `handleClone` when the scrape stage fails on a valid URL. -/
theorem handleClone_scrape_err (cfg : EnvConfig) (ok : String → Bool)
    (scrape : String → Except JsError ScrapeResult)
    (gen : String → Except JsError GeneratedCode)
    (t ts u : String) (e : JsError)
    (hne : u ≠ "") (hok : ok u = true) (hs : scrape u = Except.error e) :
    handleClone cfg ok scrape gen t ts (some u) =
      ⟨500, RespBody.failure
          (if e.message == "" then "Internal server error" else e.message)
          "Failed to clone website. Please check the URL and try again."
          (if cfg.nodeEnv == "development" then some e.stack else none),
        true, false⟩ := by
  rw [handleClone_some cfg ok scrape gen t ts u hne, if_pos hok, hs]

/-- C7 counterexample: a request whose `url` field is PRESENT but holds the
empty string (which is also not a well-formed URL) receives the
missing-field response `URL is required`, not the claimed malformed-URL
response `Invalid URL`, because the JS `!url` check treats the empty string
as absent. -/
theorem c7_counterexample :
    handleClone defaultCfg urlNone scrapeStubOk genStubOk "0.1" "ts" (some "") =
      ⟨400, RespBody.validationError "URL is required" "Please provide a valid URL to clone",
        false, false⟩ ∧
    "URL is required" ≠ "Invalid URL" :=
  ⟨rfl, by decide⟩

/-- C7: an absent `url` field yields the 400 `URL is required` response, and
a present, non-empty `url` rejected by the URL constructor yields the 400
`Invalid URL` response; in both cases neither the scraper nor the generator
is invoked.  (The claim as stated also covers a present but empty `url`,
which actually falls in the `URL is required` branch: see the
counterexample.) -/
theorem c7_url_validation (cfg : EnvConfig) (ok : String → Bool)
    (scrape : String → Except JsError ScrapeResult)
    (gen : String → Except JsError GeneratedCode) (t ts : String) :
    handleClone cfg ok scrape gen t ts none =
      ⟨400, RespBody.validationError "URL is required" "Please provide a valid URL to clone",
        false, false⟩ ∧
    ∀ u, u ≠ "" → ok u = false →
      handleClone cfg ok scrape gen t ts (some u) =
        ⟨400, RespBody.validationError "Invalid URL" "Please provide a valid URL format",
          false, false⟩ := by
  constructor
  · rfl
  · intro u hne hok
    rw [handleClone_some cfg ok scrape gen t ts u hne, if_neg (by simp [hok])]

/-- C7 witness: the two validation branches at concrete inputs. -/
theorem c7_url_validation_witness :
    handleClone defaultCfg urlNone scrapeStubOk genStubOk "0.1" "ts" none =
      ⟨400, RespBody.validationError "URL is required" "Please provide a valid URL to clone",
        false, false⟩ ∧
    handleClone defaultCfg urlNone scrapeStubOk genStubOk "0.1" "ts" (some "not a url") =
      ⟨400, RespBody.validationError "Invalid URL" "Please provide a valid URL format",
        false, false⟩ :=
  ⟨(c7_url_validation defaultCfg urlNone scrapeStubOk genStubOk "0.1" "ts").1,
   (c7_url_validation defaultCfg urlNone scrapeStubOk genStubOk "0.1" "ts").2
     "not a url" (by decide) rfl⟩

/-- C8 counterexample: with `NODE_ENV` set to `test` — a non-production
configuration — the 500 envelope carries NO `details` stack trace, refuting
the claim that the trace is present for every non-production mode; the code
includes it only when `NODE_ENV` equals `development` exactly. -/
theorem c8_counterexample :
    handleClone ⟨"test"⟩ urlAll scrapeStubErr genStubOk "0.1" "ts" (some "http://a") =
      ⟨500, RespBody.failure "boom"
          "Failed to clone website. Please check the URL and try again." none,
        true, false⟩ ∧
    "test" ≠ "production" :=
  ⟨rfl, by decide⟩

/-- C8: when the scrape stage throws on a validated URL, the handler
responds 500 with the error message and the fixed apology string, and the
`details` field holds the stack trace exactly when `NODE_ENV` is
`development` — so it is ABSENT, not present, in non-production modes other
than `development`. -/
theorem c8_error_envelope (cfg : EnvConfig) (ok : String → Bool)
    (scrape : String → Except JsError ScrapeResult)
    (gen : String → Except JsError GeneratedCode)
    (t ts u : String) (e : JsError)
    (hne : u ≠ "") (hok : ok u = true) (hs : scrape u = Except.error e)
    (hmsg : e.message ≠ "") :
    ∃ dets,
      handleClone cfg ok scrape gen t ts (some u) =
        ⟨500, RespBody.failure e.message
            "Failed to clone website. Please check the URL and try again." dets,
          true, false⟩ ∧
      (dets = some e.stack ↔ cfg.nodeEnv = "development") ∧
      (dets = none ↔ cfg.nodeEnv ≠ "development") := by
  refine ⟨if cfg.nodeEnv == "development" then some e.stack else none, ?_, ?_, ?_⟩
  · rw [handleClone_scrape_err cfg ok scrape gen t ts u e hne hok hs,
      if_neg (by simp [hmsg])]
  · by_cases hd : cfg.nodeEnv = "development"
    · simp [hd]
    · simp [hd]
  · by_cases hd : cfg.nodeEnv = "development"
    · simp [hd]
    · simp [hd]

/-- C8 witness: a development-mode failure at concrete inputs carries the
stack trace. -/
theorem c8_error_envelope_witness :
    ∃ dets,
      handleClone defaultCfg urlAll scrapeStubErr genStubOk "0.1" "ts" (some "http://a") =
        ⟨500, RespBody.failure "boom"
            "Failed to clone website. Please check the URL and try again." dets,
          true, false⟩ ∧
      (dets = some "STACKTRACE" ↔ defaultCfg.nodeEnv = "development") ∧
      (dets = none ↔ defaultCfg.nodeEnv ≠ "development") :=
  c8_error_envelope defaultCfg urlAll scrapeStubErr genStubOk "0.1" "ts" "http://a"
    ⟨"boom", "STACKTRACE"⟩ (by decide) rfl rfl (by decide)

/-- Reduction of `handleClone` when scraping succeeds and generation fails
on a valid URL. -/
theorem handleClone_gen_err (cfg : EnvConfig) (ok : String → Bool)
    (scrape : String → Except JsError ScrapeResult)
    (gen : String → Except JsError GeneratedCode)
    (t ts u : String) (sr : ScrapeResult) (e : JsError)
    (hne : u ≠ "") (hok : ok u = true)
    (hs : scrape u = Except.ok sr) (hg : gen sr.html = Except.error e) :
    handleClone cfg ok scrape gen t ts (some u) =
      ⟨500, RespBody.failure
          (if e.message == "" then "Internal server error" else e.message)
          "Failed to clone website. Please check the URL and try again."
          (if cfg.nodeEnv == "development" then some e.stack else none),
        true, true⟩ := by
  rw [handleClone_some cfg ok scrape gen t ts u hne, if_pos hok]
  simp only [hs]
  simp only [hg]

/-- Reduction of `handleClone` when both pipeline stages succeed on a valid
URL. -/
theorem handleClone_gen_ok (cfg : EnvConfig) (ok : String → Bool)
    (scrape : String → Except JsError ScrapeResult)
    (gen : String → Except JsError GeneratedCode)
    (t ts u : String) (sr : ScrapeResult) (g : GeneratedCode)
    (hne : u ≠ "") (hok : ok u = true)
    (hs : scrape u = Except.ok sr) (hg : gen sr.html = Except.ok g) :
    handleClone cfg ok scrape gen t ts (some u) =
      ⟨200, RespBody.success ⟨sr.html, sr.css, g.sqlSchema, g.nodeRoute, u, t, ts⟩,
        true, true⟩ := by
  rw [handleClone_some cfg ok scrape gen t ts u hne, if_pos hok]
  simp only [hs]
  simp only [hg]

/-- C10: URL validation is exactly the URL constructor test, with no scheme
restriction — for any present non-empty `url`, the scraper is invoked iff
the constructor accepts the string (so `ftp:` or `javascript:` URLs pass),
and the 400 `Invalid URL` response occurs iff the constructor rejects it. -/
theorem c10_scheme_agnostic_validation (cfg : EnvConfig) (ok : String → Bool)
    (scrape : String → Except JsError ScrapeResult)
    (gen : String → Except JsError GeneratedCode)
    (t ts u : String) (hne : u ≠ "") :
    (handleClone cfg ok scrape gen t ts (some u)).scrapeCalled = ok u ∧
    ((handleClone cfg ok scrape gen t ts (some u)).body =
        RespBody.validationError "Invalid URL" "Please provide a valid URL format" ↔
      ok u = false) := by
  by_cases hok : ok u = true
  · cases hs : scrape u with
    | error e =>
      rw [handleClone_scrape_err cfg ok scrape gen t ts u e hne hok hs]
      exact ⟨hok.symm, fun h => RespBody.noConfusion h, fun h => Bool.noConfusion (h ▸ hok)⟩
    | ok sr =>
      cases hg : gen sr.html with
      | error e =>
        rw [handleClone_gen_err cfg ok scrape gen t ts u sr e hne hok hs hg]
        exact ⟨hok.symm, fun h => RespBody.noConfusion h, fun h => Bool.noConfusion (h ▸ hok)⟩
      | ok g =>
        rw [handleClone_gen_ok cfg ok scrape gen t ts u sr g hne hok hs hg]
        exact ⟨hok.symm, fun h => RespBody.noConfusion h, fun h => Bool.noConfusion (h ▸ hok)⟩
  · have hok2 : ok u = false := by simpa using hok
    rw [handleClone_some cfg ok scrape gen t ts u hne, if_neg hok]
    exact ⟨hok2.symm, fun _ => hok2, fun _ => rfl⟩

/-- C10 witness: a `javascript:` URL accepted by the constructor reaches the
scraper and does not get the invalid-URL response. -/
theorem c10_scheme_agnostic_validation_witness :
    (handleClone defaultCfg urlAll scrapeStubOk genStubOk "0.1" "ts"
        (some "javascript:alert(1)")).scrapeCalled = urlAll "javascript:alert(1)" ∧
    ((handleClone defaultCfg urlAll scrapeStubOk genStubOk "0.1" "ts"
          (some "javascript:alert(1)")).body =
        RespBody.validationError "Invalid URL" "Please provide a valid URL format" ↔
      urlAll "javascript:alert(1)" = false) :=
  c10_scheme_agnostic_validation defaultCfg urlAll scrapeStubOk genStubOk "0.1" "ts"
    "javascript:alert(1)" (by decide)
